import Mathlib

/-!
# Verification of the `rest` HTTP client core

A shallow embedding, in Lean 4, of the retrying HTTP executor and the fluent
request builder of the `trustwallet-assignment` repository (`rest` package:
`retry.go`-style retry code, `rest.go` builder, `body.go` providers,
`response.go` decoders), together with theorems checking the repository's
specification against this embedding.

Modelling conventions:
* Go machine integers are modelled as `Int`/`Nat`; where 64-bit overflow or
  `float64` conversion matters, the relevant range checks are made explicit.
* Go strings are modelled as `String` or as `List Char` (`Str`) where
  character-level reasoning is needed.  Go's byte indexing always happens at
  `/`-boundaries in the modelled code, so character-level slicing coincides
  with Go's byte-level slicing on well-formed UTF-8.
* Fallible operations return `Option`/structured result types.
* Effects (the HTTP transport, the context's cancellation state, body
  rewinding, the timer/cancellation race of the backoff wait) are supplied as
  explicit per-attempt environments.
-/

/-! ## Errors and responses -/

/-- Model of a Go `error` value as classified by the retry policy.

`urlError` models a `*url.Error`; its three flags record, respectively,
whether `redirectsErrorRe` matches the error text (`stopped after N
redirects`), whether `schemeErrorRe` matches it (`unsupported protocol
scheme`), and whether the wrapped error is an `x509.UnknownAuthorityError`
(TLS certificate-trust failure).  `ctxCanceled`/`ctxDeadlineExceeded` model
the two context errors; `other` models any other error value (tagged so
distinct errors can be told apart). -/
inductive GoErr where
  | urlError (redirectLimit schemeErr tlsUnknownAuth : Bool)
  | ctxCanceled
  | ctxDeadlineExceeded
  | other (tag : Nat)
deriving DecidableEq, Repr

/-- Model of an `*http.Response` as consumed by the retry code: the status
code, and the first value of the `Retry-After` header if that (canonical)
key is present.  No other response field is read by the modelled code. -/
structure HResp where
  statusCode : Nat
  retryAfter : Option String := none
deriving DecidableEq, Repr

/-! ## `DefaultRetryPolicy` (retry.go) -/

/-- Model of `DefaultRetryPolicy(ctx, resp, err)`.

`ctxErr` is the value of `ctx.Err()` at the moment the policy runs.  The Go
code dereferences `resp.StatusCode` in the no-error branch; a nil response
together with a nil error cannot be produced by a conforming `Doer`, and the
model reads status `0` in that (unreachable) case. -/
def DefaultRetryPolicy (ctxErr : Option GoErr) (resp : Option HResp)
    (err : Option GoErr) : Bool × Option GoErr :=
  match ctxErr with
  | some e => (false, some e)
  | none =>
    match err with
    | some e =>
      match e with
      | .urlError redirectLimit schemeErr tlsUnknownAuth =>
        if redirectLimit then (false, none)
        else if schemeErr then (false, none)
        else if tlsUnknownAuth then (false, none)
        else (true, none)
      | _ => (true, none)
    | none =>
      let code := (resp.map HResp.statusCode).getD 0
      if code = 429 then (true, none)
      else if code = 0 || (500 ≤ code && code ≠ 501) then (true, none)
      else (false, none)

/-! ## `DefaultBackoff` (retry.go) -/

/-- Model of `strconv.ParseInt(s, 10, 64)`: an optional sign followed by a
non-empty run of decimal digits, whose value fits in a signed 64-bit
integer; every other input is an error. -/
def parseInt64 (s : List Char) : Option Int :=
  let (sign, digits) : Int × List Char :=
    match s with
    | '+' :: rest => (1, rest)
    | '-' :: rest => (-1, rest)
    | _ => (1, s)
  if digits = [] then none
  else if ¬ digits.all Char.isDigit then none
  else
    let n : Nat := digits.foldl (fun a c => a * 10 + (c.toNat - 48)) 0
    let v : Int := sign * n
    if v < -(2 ^ 63) ∨ 2 ^ 63 - 1 < v then none else some v

/-- The `Retry-After` override of `DefaultBackoff`: the parsed first value
of the `Retry-After` header, provided the response exists and has status
429.  This factors the early-return chain of the Go code. -/
def retryAfterSeconds (resp : Option HResp) : Option Int :=
  match resp with
  | some r =>
    if r.statusCode = 429 then r.retryAfter.bind (fun s => parseInt64 s.toList)
    else none
  | none => none

/-- Two's-complement wrap-around of Go's `int64` arithmetic: the value in
`[-2^63, 2^63)` congruent to `n` modulo `2^64`. -/
def wrapInt64 (n : Int) : Int := (n + 2 ^ 63) % 2 ^ 64 - 2 ^ 63

/-- `float64` rounding of a natural number: round to nearest, ties to
even, at 53 bits of precision.  Exact for `m ≤ 2^53`; int64-sized inputs
never overflow to infinity. -/
def fl64Nat (m : Nat) : Nat :=
  if m ≤ 2 ^ 53 then m
  else
    let e := m.log2 - 52
    let q := m / 2 ^ e
    let r := m % 2 ^ e
    let q2 := if 2 ^ (e - 1) < r ∨ (r = 2 ^ (e - 1) ∧ q % 2 = 1) then q + 1 else q
    q2 * 2 ^ e

/-- `float64(min)` for an `int64`-sized integer (rounding is symmetric in
the sign). -/
def fl64 (m : Int) : Int :=
  if m < 0 then -(fl64Nat (-m).toNat : Int) else (fl64Nat m.toNat : Int)

/-- `mult := math.Pow(2, float64(attemptNum)) * float64(min)` as an exact
integer when the float64 product is finite, `none` when it is not:
`math.Pow(2, n)` is `+Inf` for `n ≥ 1024` (making the product `±Inf`, or
`NaN` for `Inf * 0`), and scaling `float64(min)` by `2^n` is exact until
it overflows at magnitude `2^1024`. -/
def multF (minD : Int) (attemptNum : Nat) : Option Int :=
  if 1024 ≤ attemptNum then none
  else
    let m := 2 ^ attemptNum * fl64 minD
    if m < 2 ^ 1024 ∧ -(2 ^ 1024) < m then some m else none

/-- Exponential part of `DefaultBackoff`, in nanoseconds.

The Go code computes `mult := math.Pow(2, attemptNum) * float64(min)`,
`sleep := time.Duration(mult)`, and takes `max` whenever
`float64(sleep) != mult || sleep > max`.  When `mult` is a finite integer
float in `[-2^63, 2^63)` the conversion round-trips exactly and the check
reduces to `mult > max`; for any out-of-range or non-finite `mult` the
round-trip comparison fails (the implementation-specific conversion
result is some `int64`, whose `float64` image cannot equal `mult`) and
the result is `max`. -/
def expBackoff (minD maxD : Int) (attemptNum : Nat) : Int :=
  match multF minD attemptNum with
  | none => maxD
  | some mult =>
    if (-(2 ^ 63) ≤ mult ∧ mult < 2 ^ 63) ∧ ¬ (mult > maxD) then mult else maxD

/-- Model of `DefaultBackoff(min, max, attemptNum, resp)`; durations are in
nanoseconds.  The Retry-After arm computes Go's
`time.Second * time.Duration(sleep)`, an `int64` multiplication that
wraps around for `|10^9 * sleep| ≥ 2^63`. -/
def DefaultBackoff (minD maxD : Int) (attemptNum : Nat) (resp : Option HResp) : Int :=
  match retryAfterSeconds resp with
  | some sleep => wrapInt64 (1000000000 * sleep)
  | none => expBackoff minD maxD attemptNum

/-! ## `DoCustom` (retry.go): the retry loop -/

/-- The result of one call of the (modelled) retry loop. -/
inductive DoResult where
  /-- `return resp, nil`: the last attempt succeeded and the policy did not
  ask for a retry. -/
  | ok (resp : Option HResp)
  /-- `return resp, err` from a failed body rewind before an attempt. -/
  | rewindFail (resp : Option HResp) (e : GoErr)
  /-- `return nil, req.Context().Err()`: cancellation won the race against
  the backoff timer. -/
  | ctxCanceledInWait (e : GoErr)
  /-- The configured `ErrorHandler` determined the returned pair. -/
  | handled (resp : Option HResp) (e : Option GoErr)
  /-- The default terminal error: `... giving up after <attempts>
  attempt(s)`, wrapping `cause` when the policy or transport produced an
  error value. -/
  | givingUp (attempts : Nat) (cause : Option GoErr)
deriving DecidableEq, Repr

/-- The per-call configuration of a `RetryDoer` as far as `DoCustom` reads
it.  `checkRetry` receives the (0-based) attempt index so that a policy
consulting the context can observe time-dependent state; the wired-in
default policy is `DefaultRetryPolicy` at the context state of that
moment. -/
structure RetryDoerM where
  retryMax : Int
  checkRetry : Nat → Option HResp → Option GoErr → Bool × Option GoErr
  errorHandler : Option (Option HResp → Option GoErr → Nat → Option HResp × Option GoErr) := none

/-- The environment of one `DoCustom` call: for each 0-based loop index
`i`, the outcome of rewinding the body, the inner executor's outcome, and
whether the context's cancellation fires before the backoff timer during
the wait following attempt `i` (and with which error). -/
structure RetryEnv where
  rewind : Nat → Option GoErr
  outcome : Nat → Option HResp × Option GoErr
  cancelInWait : Nat → Option GoErr

/-- Terminal handling after the loop exits (`DoCustom` below the loop).
`attempt` is the value of the 1-based attempt counter. -/
def doCustomFinish (c : RetryDoerM) (resp : Option HResp)
    (doErr checkErr : Option GoErr) (shouldRetry : Bool) (attempt : Nat) : DoResult :=
  match doErr, checkErr, shouldRetry with
  | none, none, false => .ok resp
  | _, _, _ =>
    let err := match checkErr with
      | some e => some e
      | none => doErr
    match c.errorHandler with
    | some h =>
      let (r, e) := h resp err attempt
      .handled r e
    | none =>
      match err with
      | none => .givingUp attempt none
      | some e => .givingUp attempt (some e)

/-- The `for i := 0; ; i++` loop of `DoCustom`, together with the number of
inner-executor invocations it performs.

`fuel` stands for the remaining retry budget: the loop guard in Go is
`remain := c.RetryMax - i; remain <= 0`, and along any run
`fuel = (c.RetryMax - i).toNat`, so the guard holds exactly when
`fuel = 0`; recursing on `fuel` is therefore a faithful rendering of the
guard. `lastResp` is the response of the previous iteration (returned by a
failing rewind). -/
def doCustomLoop (c : RetryDoerM) (env : RetryEnv) :
    Nat → Nat → Option HResp → DoResult × Nat
  | fuel, i, lastResp =>
    match env.rewind i with
    | some e => (.rewindFail lastResp e, 0)
    | none =>
      let out := env.outcome i
      let chk := c.checkRetry i out.1 out.2
      if !chk.1 then
        (doCustomFinish c out.1 out.2 chk.2 chk.1 (i + 1), 1)
      else
        match fuel with
        | 0 => (doCustomFinish c out.1 out.2 chk.2 chk.1 (i + 1), 1)
        | fuel' + 1 =>
          match env.cancelInWait i with
          | some e => (.ctxCanceledInWait e, 1)
          | none =>
            let rest := doCustomLoop c env fuel' (i + 1) out.1
            (rest.1, rest.2 + 1)

/-- Model of `DoCustom`: result, paired with the number of times the inner
executor (`c.HTTPClient.Do`) was invoked. -/
def DoCustom (c : RetryDoerM) (env : RetryEnv) : DoResult × Nat :=
  doCustomLoop c env c.retryMax.toNat 0 none

/-- The attempt count carried by a returned terminal error, when the error
carries one (only the default `giving up after N attempt(s)` error
does). -/
def DoResult.errAttempts : DoResult → Option Nat
  | .givingUp a _ => some a
  | _ => none

/-- Whether a `DoCustom` result is a non-nil terminal error. -/
def DoResult.isErr : DoResult → Bool
  | .ok _ => false
  | .handled _ e => e.isSome
  | _ => true

/-- A `RetryDoer` wired with the default retry policy and no error handler,
the context state being `ctxErrAt i` when the policy runs after attempt
`i`. -/
def mkDefaultDoer (retryMax : Int) (ctxErrAt : Nat → Option GoErr) : RetryDoerM :=
  { retryMax := retryMax
    checkRetry := fun i resp err => DefaultRetryPolicy (ctxErrAt i) resp err
    errorHandler := none }

/-! ### Concrete retry configurations used to exercise the theorems -/

/-- A doer that always retries, with a retry budget of 1. -/
def retryAlwaysDoer : RetryDoerM :=
  { retryMax := 1, checkRetry := fun _ _ _ => (true, none), errorHandler := none }

/-- An environment whose attempts all fail with a retryable server error
and where cancellation never fires. -/
def serverErrorEnv : RetryEnv :=
  { rewind := fun _ => none
    outcome := fun _ => (some ⟨500, none⟩, none)
    cancelInWait := fun _ => none }

/-- An environment whose first attempt fails with a generic transport error
and where the context is canceled during the first backoff wait. -/
def cancelInWaitEnv : RetryEnv :=
  { rewind := fun _ => none
    outcome := fun _ => (none, some (.other 7))
    cancelInWait := fun _ => some .ctxCanceled }

/-- A context that is already canceled when the policy first runs. -/
def canceledCtx : Nat → Option GoErr := fun _ => some .ctxCanceled

/-- A context that never cancels. -/
def liveCtx : Nat → Option GoErr := fun _ => none


/-! ## Body providers (body.go) and the builder's body state (rest.go) -/

/-- The `BodyProvider` implementations of body.go, as a tagged variant.
Payloads and readers are opaque (modelled as `Nat` tags); `formUrlEncoded`
carries its explicit key/value map. -/
inductive BodyP where
  /-- `bodyProvider{body io.Reader}` (raw `Body` setter). -/
  | raw (body : Nat)
  /-- `jsonBodyProvider{payload}`. -/
  | json (payload : Nat)
  /-- `formBodyProvider{payload}`. -/
  | form (payload : Nat)
  /-- `formUrlEncodedProvider{values}`. -/
  | formUrlEncoded (values : List (String × String))
  /-- `xmlProvider{payload}`. -/
  | xml (payload : Nat)
deriving DecidableEq, Repr

/-- `ContentType()` of each provider: `""` for the raw reader,
`jsonContentType`, `formContentType` (also for the url-encoded map
variant) and `xmlContentType`. -/
def BodyP.contentType : BodyP → String
  | .raw _ => ""
  | .json _ => "application/json"
  | .form _ => "application/x-www-form-urlencoded"
  | .formUrlEncoded _ => "application/x-www-form-urlencoded"
  | .xml _ => "text/xml"

/-- `multipartDataBodyProvider{payload, filePayload}`; the two maps are
opaque, `none` standing for a nil map. -/
structure MultipartBodyP where
  payload : Option Nat
  filePayload : Option Nat
deriving DecidableEq, Repr

/-- `http.Header.Set` on an association-list header (keys assumed already
canonical): replaces all values of `k` by `[v]`. -/
def headerSet (h : List (String × List String)) (k v : String) : List (String × List String) :=
  match h with
  | [] => [(k, [v])]
  | (k', vs) :: t => if k' = k then (k, [v]) :: t else (k', vs) :: headerSet t k v

/-- The fields of the `Rest` builder touched by the body setters (the
remaining fields are inert under these operations). -/
structure RestB where
  header : List (String × List String) := []
  bodyProvider : Option BodyP := none
  multipartBodyProvider : Option MultipartBodyP := none
deriving DecidableEq, Repr

/-- `New()`, restricted to the body-relevant fields. -/
def RestB.New : RestB := {}

/-- `Rest.BodyProvider`: set-if-present; clears the multipart slot and
writes the provider's content type (when non-empty) via `SetHeader`. -/
def RestB.BodyProvider (s : RestB) (body : Option BodyP) : RestB :=
  match body with
  | none => s
  | some bp =>
    let s' : RestB := { s with bodyProvider := some bp, multipartBodyProvider := none }
    if bp.contentType ≠ "" then
      { s' with header := headerSet s'.header "Content-Type" bp.contentType }
    else s'

/-- `Rest.BodyMultipartProvider`: set-if-present; clears the single-body
slot (and writes no header — the multipart content type is only computed
at `Request()` time). -/
def RestB.BodyMultipartProvider (s : RestB) (body : Option MultipartBodyP) : RestB :=
  match body with
  | none => s
  | some bp => { s with bodyProvider := none, multipartBodyProvider := some bp }

/-- `Rest.Body(body io.Reader)`. -/
def RestB.Body (s : RestB) (body : Option Nat) : RestB :=
  match body with
  | none => s
  | some r => s.BodyProvider (some (.raw r))

/-- `Rest.BodyJSON`. -/
def RestB.BodyJSON (s : RestB) (bodyJSON : Option Nat) : RestB :=
  match bodyJSON with
  | none => s
  | some p => s.BodyProvider (some (.json p))

/-- `Rest.BodyForm`. -/
def RestB.BodyForm (s : RestB) (bodyForm : Option Nat) : RestB :=
  match bodyForm with
  | none => s
  | some p => s.BodyProvider (some (.form p))

/-- `Rest.BodyUrlEncode`. -/
def RestB.BodyUrlEncode (s : RestB) (values : Option (List (String × String))) : RestB :=
  match values with
  | none => s
  | some v => s.BodyProvider (some (.formUrlEncoded v))

/-- `Rest.BodyMultipart(payload, filePayload)`: returns the builder
untouched when both maps are nil. -/
def RestB.BodyMultipart (s : RestB) (payload filePayload : Option Nat) : RestB :=
  if payload = none ∧ filePayload = none then s
  else s.BodyMultipartProvider (some ⟨payload, filePayload⟩)

/-- `Rest.BodyXML`. -/
def RestB.BodyXML (s : RestB) (bodyXml : Option Nat) : RestB :=
  match bodyXml with
  | none => s
  | some p => s.BodyProvider (some (.xml p))

/-- One call of a body setter, with its (possibly nil) argument. -/
inductive BodyOp where
  | body (r : Option Nat)
  | bodyJSON (p : Option Nat)
  | bodyForm (p : Option Nat)
  | bodyUrlEncode (v : Option (List (String × String)))
  | bodyMultipart (payload filePayload : Option Nat)
  | bodyXML (p : Option Nat)
  | bodyProvider (bp : Option BodyP)
  | bodyMultipartProvider (mp : Option MultipartBodyP)

/-- Apply one body-setter call. -/
def RestB.applyBodyOp (s : RestB) : BodyOp → RestB
  | .body r => s.Body r
  | .bodyJSON p => s.BodyJSON p
  | .bodyForm p => s.BodyForm p
  | .bodyUrlEncode v => s.BodyUrlEncode v
  | .bodyMultipart p fp => s.BodyMultipart p fp
  | .bodyXML p => s.BodyXML p
  | .bodyProvider bp => s.BodyProvider bp
  | .bodyMultipartProvider mp => s.BodyMultipartProvider mp

/-- Apply a sequence of body-setter calls, oldest first. -/
def RestB.applyBodyOps (s : RestB) (ops : List BodyOp) : RestB :=
  ops.foldl RestB.applyBodyOp s

/-- At most one of the two body slots is populated. -/
def RestB.bodyExclusive (s : RestB) : Prop :=
  s.bodyProvider = none ∨ s.multipartBodyProvider = none

/-! ## `Do` and response decoding (rest.go / response.go) -/

/-- `DecodeOnSuccess`, the default `SuccessDecider`: 2xx statuses. -/
def DecodeOnSuccess (r : HResp) : Bool :=
  200 ≤ r.statusCode && r.statusCode ≤ 299

/-- The kind of decode target handed to `Do`/`decodeResponse`: a nil
interface, a `*Raw` byte-capture target, or an ordinary typed target. -/
inductive TargetKind where
  | absent
  | raw
  | typed
deriving DecidableEq, Repr

/-- Decode-time environment: the configured success decider, and the
outcomes of `ioutil.ReadAll` and of `responseDecoder.Decode` on this
response body. -/
structure DecodeEnv where
  isSuccess : HResp → Bool
  readAllErr : Option GoErr
  decodeErr : Option GoErr

/-- The observable outcome of `Do`: returned response and error, and
whether the success/failure targets were written to. -/
structure DoOut where
  resp : Option HResp
  err : Option GoErr
  wroteSuccess : Bool
  wroteFailure : Bool
deriving DecidableEq, Repr

/-- Model of `decodeResponse(resp, successV, failureV)`: returns the error
and which target was written.  A nil success target returns nil; a nil
failure target drains the body and returns nil; `*Raw` targets receive the
raw bytes (with `ReadAll`'s error); typed targets go through the response
decoder. -/
def decodeResponse (r : HResp) (sv fv : TargetKind) (env : DecodeEnv) :
    Option GoErr × Bool × Bool :=
  if env.isSuccess r then
    match sv with
    | .absent => (none, false, false)
    | .raw => (env.readAllErr, true, false)
    | .typed => (env.decodeErr, true, false)
  else
    match fv with
    | .absent => (none, false, false)
    | .raw => (env.readAllErr, false, true)
    | .typed => (env.decodeErr, false, true)

/-- Model of `Rest.Do(req, successV, failureV)`.  `doResult` is the
transport outcome (`http.Client`-conforming: a response or an error); on
transport error `Do` returns immediately with no decoding; a 204 response
skips decoding entirely; otherwise, if any target was requested, the body
is decoded by `decodeResponse`. -/
def RestDo (doResult : Except GoErr HResp) (sv fv : TargetKind) (env : DecodeEnv) : DoOut :=
  match doResult with
  | .error e => { resp := none, err := some e, wroteSuccess := false, wroteFailure := false }
  | .ok r =>
    if r.statusCode = 204 then
      { resp := some r, err := none, wroteSuccess := false, wroteFailure := false }
    else if sv ≠ TargetKind.absent ∨ fv ≠ TargetKind.absent then
      let d := decodeResponse r sv fv env
      { resp := some r, err := d.1, wroteSuccess := d.2.1, wroteFailure := d.2.2 }
    else
      { resp := some r, err := none, wroteSuccess := false, wroteFailure := false }


/-! ## URLs: `Base` and `Path` (rest.go) over a model of `net/url`

The builder's `Base`/`Path` methods delegate to `net/url`'s `Parse`,
`ResolveReference` and `String`.  Those are modelled here over `List Char`
(Go's byte-level slicing in this code always happens at `/` boundaries, so
character-level slicing agrees with it on well-formed UTF-8), with these
documented restrictions relative to the Go standard library:

* no query (`?`), fragment (`#`) or userinfo (`@`) splitting: such
  characters are treated as ordinary path characters;
* no percent-escape decoding/re-encoding and no escaping in `String`:
  the theorems below only quantify over strings whose characters render
  verbatim;
* no host validation: `parseURL` fails only on control characters, on a
  leading `:` with no scheme, and on a colon in the first path segment of
  a scheme-less URL — each of these is also a `url.Parse` error.
-/

/-- Go strings, character by character. -/
abbrev Str := List Char

/-- Control characters rejected by `url.Parse`
(`stringContainsCTLByte`). -/
def isCtl (c : Char) : Bool := c.toNat < 0x20 || c.toNat == 0x7f

/-- Characters allowed inside a scheme after its first letter. -/
def isSchemeChar (c : Char) : Bool :=
  c.isAlpha || c.isDigit || c == '+' || c == '-' || c == '.'

/-- Result of `getScheme`: a hard error (`:` in first position), no scheme
found (the input is used unchanged), or a scheme plus the remainder after
the colon. -/
inductive SchemeRes where
  | schemeMissing
  | noScheme
  | found (scheme rest : Str)
deriving DecidableEq, Repr

/-- Scan of `getScheme` past the first character: scheme characters up to
a `:` produce `found`; anything else means the URL has no scheme. -/
def getSchemeLoop (pre : Str) : Str → SchemeRes
  | [] => .noScheme
  | c :: rest =>
    if c = ':' then .found pre rest
    else if isSchemeChar c then getSchemeLoop (pre ++ [c]) rest
    else .noScheme

/-- Model of `net/url`'s `getScheme`: a scheme must start with a letter; a
digit/`+`/`-`/`.` or any other character first means no scheme; a leading
`:` is the `missing protocol scheme` error. -/
def getScheme : Str → SchemeRes
  | [] => .noScheme
  | c :: rest =>
    if c = ':' then .schemeMissing
    else if c.isAlpha then getSchemeLoop [c] rest
    else .noScheme

/-- Model of a parsed `url.URL`, restricted to the fields the builder
reads: `Scheme`, `Opaque` (field `opq`), `Host`, `Path`, and the
`OmitHost` flag (`scheme:/path` URLs render without `//`). -/
structure GoURL where
  scheme : Str := []
  opq : Str := []
  host : Str := []
  path : Str := []
  omitHost : Bool := false
deriving DecidableEq, Repr

/-- Model of `url.Parse` under the restrictions listed above.  The scheme
is lowercased as in Go; an authority is delimited by the next `/`. -/
def parseURL (s : Str) : Option GoURL :=
  if s.any isCtl then none
  else
    match getScheme s with
    | .schemeMissing => none
    | .found sch rest =>
      let sch := sch.map Char.toLower
      if rest.take 1 ≠ ['/'] then some { scheme := sch, opq := rest }
      else if rest.take 2 = ['/', '/'] then
        some { scheme := sch
               host := (rest.drop 2).takeWhile (fun c => c ≠ '/')
               path := (rest.drop 2).dropWhile (fun c => c ≠ '/') }
      else some { scheme := sch, path := rest, omitHost := true }
    | .noScheme =>
      if s.take 1 ≠ ['/'] ∧ (s.takeWhile (fun c => c ≠ '/')).contains ':' then none
      else if s.take 2 = ['/', '/'] ∧ s.take 3 ≠ ['/', '/', '/'] then
        some { host := (s.drop 2).takeWhile (fun c => c ≠ '/')
               path := (s.drop 2).dropWhile (fun c => c ≠ '/') }
      else some { path := s }

/-- `base[:strings.LastIndex(base, "/")+1]`: the prefix of `base` up to
and including its last slash (empty when there is none). -/
def upToLastSlash : Str → Str
  | [] => []
  | c :: cs =>
    if cs.contains '/' then c :: upToLastSlash cs
    else if c = '/' then ['/'] else []

/-- `str[:strings.LastIndexByte(str, '/')]`: the prefix of `str` strictly
before its last slash, or `none` when there is none. -/
def beforeLastSlash : Str → Option Str
  | [] => none
  | c :: cs =>
    match beforeLastSlash cs with
    | some r => some (c :: r)
    | none => if c = '/' then some [] else none

/-- `strings.Split(s, "/")` (never empty). -/
def splitOnSlash : Str → List Str
  | [] => [[]]
  | c :: cs =>
    if c = '/' then [] :: splitOnSlash cs
    else
      match splitOnSlash cs with
      | s :: rest => (c :: s) :: rest
      | [] => [[c]]

/-- Inverse of `splitOnSlash`: rejoin segments with `/`. -/
def unsplitSlash : List Str → Str
  | [] => []
  | s :: rest => s ++ (rest.map (fun e => '/' :: e)).flatten

/-- The segment loop of `net/url`'s `resolvePath`: `acc` is the output
buffer without its fixed leading slash; `first` tracks whether a separator
must be written before the next ordinary segment; `.` segments are
dropped, `..` segments pop the output back to its previous slash. -/
def rpLoop : List Str → Str → Bool → Str
  | [], acc, _ => acc
  | e :: rest, acc, first =>
    if e = ['.'] then rpLoop rest acc false
    else if e = ['.', '.'] then
      match beforeLastSlash acc with
      | none => rpLoop rest [] true
      | some pre => rpLoop rest pre first
    else rpLoop rest (if first then acc ++ e else acc ++ '/' :: e) false

/-- Model of `net/url`'s `resolvePath(base, ref)`. -/
def resolvePath (base ref : Str) : Str :=
  let full :=
    if ref = [] then base
    else if ref.head? ≠ some '/' then upToLastSlash base ++ ref
    else ref
  if full = [] then []
  else
    let segs := splitOnSlash full
    let acc := rpLoop segs [] true
    let lastSeg := segs.getLast?.getD []
    let acc := if lastSeg = ['.'] ∨ lastSeg = ['.', '.'] then acc ++ ['/'] else acc
    let out := '/' :: acc
    if out.take 2 = ['/', '/'] then out.drop 1 else out

/-- Model of `(*url.URL).ResolveReference(ref)` (no query/fragment): an
absolute or network-path reference wins outright; an opaque reference
keeps only scheme and opaque; otherwise the reference path is resolved
against the base path. -/
def resolveReference (u ref : GoURL) : GoURL :=
  let scheme := if ref.scheme = [] then u.scheme else ref.scheme
  if ref.scheme ≠ [] ∨ ref.host ≠ [] then
    { scheme := scheme, opq := ref.opq, host := ref.host
      path := resolvePath ref.path [], omitHost := ref.omitHost }
  else if ref.opq ≠ [] then
    { scheme := scheme, opq := ref.opq, host := [], path := []
      omitHost := ref.omitHost }
  else
    { scheme := scheme, opq := [], host := u.host
      path := resolvePath u.path ref.path, omitHost := ref.omitHost }

/-- Model of `(*url.URL).String()` (no user/query/fragment, verbatim
path): `scheme:`, then the opaque part, or `//host`, a `/` glued before a
relative path when a host is present, and the `./` guard for a scheme-less
relative URL whose first segment contains a colon. -/
def renderURL (u : GoURL) : Str :=
  let buf1 := if u.scheme ≠ [] then u.scheme ++ [':'] else []
  if u.opq ≠ [] then buf1 ++ u.opq
  else
    let buf2 := buf1 ++
      (if u.scheme ≠ [] ∨ u.host ≠ [] then
        (if u.omitHost ∧ u.host = [] then [] else '/' :: '/' :: u.host)
      else [])
    let buf3 := buf2 ++
      (if u.path ≠ [] ∧ u.path.head? ≠ some '/' ∧ u.host ≠ [] then ['/'] else [])
    let dotSlash :=
      if buf3 = [] ∧ (u.path.takeWhile (fun c => c ≠ '/')).contains ':' then ['.', '/']
      else []
    buf3 ++ dotSlash ++ u.path

/-- The URL-state of the `Rest` builder: the parsed base and the raw URL
string. -/
structure RestURL where
  baseURL : Option GoURL := none
  rawURL : Str := []
deriving DecidableEq, Repr

/-- The trailing-slash restoration at the end of `Rest.Path`. -/
def fixTrailingSlash (p raw : Str) : Str :=
  if p.getLast? = some '/' ∧ raw.getLast? ≠ some '/' then raw ++ ['/'] else raw

/-- Model of `Rest.Base(baseURL)`.  Go panics when `url.Parse` fails; the
model leaves the builder unchanged in that (never exercised) case. -/
def RestURL.Base (s : RestURL) (baseURL : Str) : RestURL :=
  match parseURL baseURL with
  | none => s
  | some u => { s with baseURL := some u, rawURL := renderURL u }

/-- Model of `Rest.Path(path)`: with no base yet, the path becomes the
base; parse failures leave the builder unmodified; otherwise the reference
is resolved against the base and a trailing slash of `path` is
restored. -/
def RestURL.Path (s : RestURL) (p : Str) : RestURL :=
  match s.baseURL with
  | none =>
    match parseURL p with
    | none => s
    | some u =>
      { s with baseURL := some u
               rawURL := fixTrailingSlash p (renderURL (resolveReference u u)) }
  | some b =>
    match parseURL p with
    | none => s
    | some pu =>
      { s with baseURL := some b
               rawURL := fixTrailingSlash p (renderURL (resolveReference b pu)) }


/-- Host characters for which the model's authority parsing, and Go's,
agree verbatim (letters, digits, dots, dashes). -/
def hostChar (c : Char) : Bool := c.isAlphanum || c == '.' || c == '-'

/-- Path characters that `url.Parse` keeps verbatim and `URL.String`
renders unescaped (RFC 3986 unreserved characters, plus the segment
separator).  Outside this set Go may percent-escape the path when
rendering, which the model does not implement. -/
def pathChar (c : Char) : Bool :=
  c.isAlphanum || c == '-' || c == '.' || c == '_' || c == '~' || c == '/'


/-! ## `Clone` and header aliasing (C9): Go slice semantics

`Clone` copies the header map key by key (`headerCopy[k] = v`), sharing
the per-key `[]string` value slices, and copies the query-structure list
with `append([]interface{}{}, s.queryStructs...)`, which allocates a fresh
backing array.  `http.Header.Add` appends in place
(`h[key] = append(h[key], value)`).  To reason about the resulting
aliasing, headers and the query list are modelled with explicit Go slice
semantics: a slice is an (array id, length, capacity) triple over a store
of backing arrays, and `append` writes in place when capacity allows,
otherwise reallocates with the runtime's doubling growth.  Header keys are
assumed to be given in canonical form. -/

/-- A Go slice header: backing array id, length, capacity.  The zero value
is the nil slice (array id 0 is the permanently empty array). -/
structure GoSlice where
  arr : Nat := 0
  len : Nat := 0
  cap : Nat := 0
deriving DecidableEq, Repr

/-- A store of backing arrays; ids below `next` are allocated (id 0 is
reserved for the nil slice). -/
structure Store (α : Type) where
  arrays : Nat → List α
  next : Nat

/-- Allocate a fresh backing array. -/
def Store.alloc {α} (st : Store α) (content : List α) : Store α × Nat :=
  ({ arrays := fun i => if i = st.next then content else st.arrays i,
     next := st.next + 1 }, st.next)

/-- Write one cell of a backing array. -/
def Store.write {α} (st : Store α) (id idx : Nat) (v : α) : Store α :=
  { st with arrays := fun i => if i = id then (st.arrays id).set idx v else st.arrays i }

/-- The Go runtime's capacity growth when appending one element to a full
small slice: doubling (1 from empty). -/
def growCap (c : Nat) : Nat := if c = 0 then 1 else 2 * c

/-- `append(s, v)` for one element: in place when `len < cap`, otherwise
into a fresh array of doubled capacity (`pad` fills the spare cells). -/
def appendSlice {α} (pad : α) (st : Store α) (s : GoSlice) (v : α) : Store α × GoSlice :=
  if s.len < s.cap then
    (st.write s.arr s.len v, { s with len := s.len + 1 })
  else
    let newCap := growCap s.cap
    let content := (st.arrays s.arr).take s.len ++ v :: List.replicate (newCap - (s.len + 1)) pad
    let res := st.alloc content
    (res.1, { arr := res.2, len := s.len + 1, cap := newCap })

/-- The elements a slice denotes. -/
def GoSlice.view {α} (st : Store α) (s : GoSlice) : List α := (st.arrays s.arr).take s.len

/-- The builder state relevant to `Clone` isolation: the header map
(per-key slices) and the query-structure slice (elements opaque). -/
structure HeapRest where
  header : String → GoSlice
  queryStructs : GoSlice

/-- The two heaps: header-value arrays and query-structure arrays. -/
structure HWorld where
  hs : Store String
  qs : Store Nat

/-- Fresh world: no arrays allocated, id 0 reserved empty. -/
def HWorld.init : HWorld := ⟨⟨fun _ => [], 1⟩, ⟨fun _ => [], 1⟩⟩

/-- `New()`: empty header map, empty query list. -/
def HeapRest.new : HeapRest := ⟨fun _ => {}, {}⟩

/-- The mutations of C9: `AddHeader`, `SetHeader`, `QueryStruct`. -/
inductive HOp where
  | addHeader (k v : String)
  | setHeader (k v : String)
  | queryStruct (q : Nat)

/-- One mutation: `Add` appends in place to the key's slice, `Set`
replaces it with a fresh one-element array, `QueryStruct` appends to the
query slice. -/
def applyHOp (w : HWorld) (r : HeapRest) : HOp → HWorld × HeapRest
  | .addHeader k v =>
    let res := appendSlice "" w.hs (r.header k) v
    ({ w with hs := res.1 },
     { r with header := fun k2 => if k2 = k then res.2 else r.header k2 })
  | .setHeader k v =>
    let res := w.hs.alloc [v]
    ({ w with hs := res.1 },
     { r with header := fun k2 => if k2 = k then { arr := res.2, len := 1, cap := 1 }
              else r.header k2 })
  | .queryStruct q =>
    let res := appendSlice 0 w.qs r.queryStructs q
    ({ w with qs := res.1 }, { r with queryStructs := res.2 })

/-- Apply a sequence of mutations, oldest first. -/
def applyHOps (w : HWorld) (r : HeapRest) : List HOp → HWorld × HeapRest
  | [] => (w, r)
  | op :: rest => applyHOps (applyHOp w r op).1 (applyHOp w r op).2 rest

/-- `Clone()`: the header map function is copied with the value slices
shared; the query-structure list is copied into a fresh array with
`len = cap`. -/
def cloneHeap (w : HWorld) (r : HeapRest) : HWorld × HeapRest :=
  let res := w.qs.alloc ((w.qs.arrays r.queryStructs.arr).take r.queryStructs.len)
  ({ w with qs := res.1 },
   { header := r.header
     queryStructs := { arr := res.2, len := r.queryStructs.len, cap := r.queryStructs.len } })

/-- The header values observed for a key. -/
def obsHeader (w : HWorld) (r : HeapRest) (k : String) : List String :=
  (r.header k).view w.hs

/-- The query-structure list observed. -/
def obsQuery (w : HWorld) (r : HeapRest) : List Nat :=
  r.queryStructs.view w.qs


/-- Well-formedness of a reachable builder in a world: allocated ids are
positive, all referenced arrays are below the allocation frontier, the nil
array (id 0) is only referenced by empty slices, and distinct header keys
share a backing array only when it is the nil array. -/
def HeapRest.wf (w : HWorld) (r : HeapRest) : Prop :=
  1 ≤ w.hs.next ∧ 1 ≤ w.qs.next ∧
  (∀ k, (r.header k).arr < w.hs.next) ∧
  r.queryStructs.arr < w.qs.next ∧
  (∀ k, (r.header k).arr = 0 → (r.header k).len = 0 ∧ (r.header k).cap = 0) ∧
  (∀ k k2, k ≠ k2 → (r.header k).arr = (r.header k2).arr → (r.header k).arr = 0)

/-- Invariant of the clone-side mutation induction (C9, part 1), relative
to the original `(w0, b)` frozen at clone time: allocation frontiers only
grow, the original observes exactly what it observed at clone time, any
header array shared between clone and original is at least as long on the
clone side, and the clone's query array never aliases the original's. -/
def cloneInv (w0 : HWorld) (b : HeapRest) (w : HWorld) (c : HeapRest) : Prop :=
  w0.hs.next ≤ w.hs.next ∧ w0.qs.next ≤ w.qs.next ∧
  (∀ k, obsHeader w b k = obsHeader w0 b k) ∧
  obsQuery w b = obsQuery w0 b ∧
  (∀ k k2, (c.header k).arr = (b.header k2).arr → (b.header k2).len ≤ (c.header k).len) ∧
  c.queryStructs.arr ≠ b.queryStructs.arr

/-- Invariant of the original-side mutation induction (C9, part 2),
relative to the clone `c` and the post-clone world `w0`: the clone's
observed query list is unchanged and the evolving original's query array
never aliases the clone's (which stays below the frontier). -/
def origInv (w0 : HWorld) (c : HeapRest) (w : HWorld) (b : HeapRest) : Prop :=
  obsQuery w c = obsQuery w0 c ∧
  b.queryStructs.arr ≠ c.queryStructs.arr ∧
  c.queryStructs.arr < w.qs.next

/-! # Theorems -/

/-! ## Retry policy (C1) -/

/-- C1, counterexample: with no transport error, the claim says retry is
`false` for every status outside {429} ∪ [500,599]∖{501}; but
`DefaultRetryPolicy` retries status 999 (its status test is
`code == 0 || (code >= 500 && code != 501)`, with no upper bound). -/
theorem DefaultRetryPolicy_retries_status_999 :
    (DefaultRetryPolicy none (some ⟨999, none⟩) none).1 = true ∧
    ¬ (999 = 429 ∨ (500 ≤ 999 ∧ 999 ≤ 599 ∧ 999 ≠ 501)) := by
  decide

/-- C1 (amended): with a live context, `DefaultRetryPolicy` returns
(no-retry, no error) for a `*url.Error` flagged as redirect-limit,
unsupported-protocol-scheme or TLS certificate-trust failure; (retry, no
error) for every other transport error; and, with no transport error,
(retry, no error) exactly for status 429, status 0 and any status ≥ 500
other than 501 — including statuses above 599 — and (no-retry, no error)
for every other status. -/
theorem DefaultRetryPolicy_spec :
    (∀ (r : HResp) (redirectLimit schemeErr tlsUnknownAuth : Bool),
        (redirectLimit || schemeErr || tlsUnknownAuth) = true →
        DefaultRetryPolicy none (some r)
          (some (.urlError redirectLimit schemeErr tlsUnknownAuth)) = (false, none)) ∧
    (∀ (r : HResp) (e : GoErr),
        (∀ redirectLimit schemeErr tlsUnknownAuth,
            e = .urlError redirectLimit schemeErr tlsUnknownAuth →
            (redirectLimit || schemeErr || tlsUnknownAuth) = false) →
        DefaultRetryPolicy none (some r) (some e) = (true, none)) ∧
    (∀ r : HResp,
        (r.statusCode = 429 ∨ r.statusCode = 0 ∨
            (500 ≤ r.statusCode ∧ r.statusCode ≠ 501)) →
        DefaultRetryPolicy none (some r) none = (true, none)) ∧
    (∀ r : HResp,
        ¬ (r.statusCode = 429 ∨ r.statusCode = 0 ∨
            (500 ≤ r.statusCode ∧ r.statusCode ≠ 501)) →
        DefaultRetryPolicy none (some r) none = (false, none)) := by
  refine ⟨?_, ?_, ?_, ?_⟩
  · intro r rl se tls h
    cases rl <;> cases se <;> cases tls <;> simp_all [DefaultRetryPolicy]
  · intro r e h
    cases e with
    | urlError rl se tls =>
      have := h rl se tls rfl
      cases rl <;> cases se <;> cases tls <;> simp_all [DefaultRetryPolicy]
    | ctxCanceled => rfl
    | ctxDeadlineExceeded => rfl
    | other t => rfl
  · intro r h
    simp only [DefaultRetryPolicy, Option.map_some', Option.getD_some]
    split_ifs with h1 h2
    · rfl
    · rfl
    · exfalso
      simp only [Bool.or_eq_true, Bool.and_eq_true, decide_eq_true_eq, ne_eq] at h2
      omega
  · intro r h
    simp only [DefaultRetryPolicy, Option.map_some', Option.getD_some]
    split_ifs with h1 h2
    · exact absurd (Or.inl h1) h
    · exfalso
      simp only [Bool.or_eq_true, Bool.and_eq_true, decide_eq_true_eq, ne_eq] at h2
      omega
    · rfl

/-- Witness for `DefaultRetryPolicy_spec`, at a TLS-trust failure, a
generic transport error, status 503 and status 200. -/
theorem DefaultRetryPolicy_spec_witness :
    DefaultRetryPolicy none (some ⟨200, none⟩) (some (.urlError false false true)) =
      (false, none) ∧
    DefaultRetryPolicy none (some ⟨200, none⟩) (some (.other 0)) = (true, none) ∧
    DefaultRetryPolicy none (some ⟨503, none⟩) none = (true, none) ∧
    DefaultRetryPolicy none (some ⟨200, none⟩) none = (false, none) :=
  ⟨DefaultRetryPolicy_spec.1 ⟨200, none⟩ false false true (by decide),
   DefaultRetryPolicy_spec.2.1 ⟨200, none⟩ (.other 0)
     (fun _ _ _ h => by cases h),
   DefaultRetryPolicy_spec.2.2.1 ⟨503, none⟩ (by decide),
   DefaultRetryPolicy_spec.2.2.2 ⟨200, none⟩ (by decide)⟩

/-! ## The retry loop (C2, C4) -/

/-- The loop performs at most `fuel + 1` inner-executor invocations. -/
theorem doCustomLoop_count_le (c : RetryDoerM) (env : RetryEnv) :
    ∀ fuel i lastResp, (doCustomLoop c env fuel i lastResp).2 ≤ fuel + 1 := by
  intro fuel
  induction fuel with
  | zero =>
    intro i lastResp
    unfold doCustomLoop
    cases h : env.rewind i
    · simp only [h]
      split <;> simp
    · simp [h]
  | succ f ih =>
    intro i lastResp
    unfold doCustomLoop
    cases h : env.rewind i
    · simp only [h]
      split
      · simp
      · cases hc : env.cancelInWait i
        · simp only [hc]
          have := ih (i + 1) (env.outcome i).1
          omega
        · simp [hc]
    · simp [h]

/-- The default terminal error always reports the `attempt` counter it was
given. -/
theorem doCustomFinish_givingUp (c : RetryDoerM) (resp : Option HResp)
    (doErr checkErr : Option GoErr) (sr : Bool) (att a : Nat) (cause : Option GoErr) :
    doCustomFinish c resp doErr checkErr sr att = .givingUp a cause → a = att := by
  unfold doCustomFinish
  split
  · exact fun h => DoResult.noConfusion h
  · cases c.errorHandler
    · cases checkErr
      · cases doErr
        · intro h
          injection h with h1 _
          omega
        · intro h
          injection h with h1 _
          omega
      · intro h
        injection h with h1 _
        omega
    · exact fun h => DoResult.noConfusion h

/-- When the loop returns the default give-up error, its reported attempt
count is the start index plus the number of invocations performed. -/
theorem doCustomLoop_givingUp_attempts (c : RetryDoerM) (env : RetryEnv) :
    ∀ fuel i lastResp a cause,
      (doCustomLoop c env fuel i lastResp).1 = .givingUp a cause →
      a = i + (doCustomLoop c env fuel i lastResp).2 := by
  intro fuel
  induction fuel with
  | zero =>
    intro i lastResp a cause
    unfold doCustomLoop
    cases h : env.rewind i
    · simp only [h]
      split
      · intro hg
        have := doCustomFinish_givingUp _ _ _ _ _ _ _ _ hg
        omega
      · intro hg
        have := doCustomFinish_givingUp _ _ _ _ _ _ _ _ hg
        omega
    · simp [h]
  | succ f ih =>
    intro i lastResp a cause
    unfold doCustomLoop
    cases h : env.rewind i
    · simp only [h]
      split
      · intro hg
        have := doCustomFinish_givingUp _ _ _ _ _ _ _ _ hg
        omega
      · cases hc : env.cancelInWait i
        · simp only [hc]
          intro hg
          have := ih (i + 1) (env.outcome i).1 a cause hg
          omega
        · simp [hc]
    · simp [h]

/-- C2 (amended): with a non-negative `RetryMax = N`, a `DoCustom` call
invokes the inner executor at most `N + 1` times; and whenever it returns
the default give-up error (rather than an `ErrorHandler` result, a
cancellation that fired during the backoff wait, or a body-rewind
failure), that error reports exactly the number of inner-executor
invocations performed. -/
theorem DoCustom_bounds (c : RetryDoerM) (env : RetryEnv) (h : 0 ≤ c.retryMax) :
    ((DoCustom c env).2 : Int) ≤ c.retryMax + 1 ∧
    ∀ a cause, (DoCustom c env).1 = .givingUp a cause → a = (DoCustom c env).2 := by
  constructor
  · have hle := doCustomLoop_count_le c env c.retryMax.toNat 0 none
    have h2 : (c.retryMax.toNat : Int) = c.retryMax := Int.toNat_of_nonneg h
    unfold DoCustom
    omega
  · intro a cause hg
    have := doCustomLoop_givingUp_attempts c env c.retryMax.toNat 0 none a cause hg
    simpa using this

/-- Witness for `DoCustom_bounds`: a doer with `RetryMax = 1` whose
attempts all yield retryable server errors performs 2 invocations and
gives up reporting 2 attempts. -/
theorem DoCustom_bounds_witness :
    (DoCustom retryAlwaysDoer serverErrorEnv = (.givingUp 2 none, 2)) ∧
    ((DoCustom retryAlwaysDoer serverErrorEnv).2 : Int) ≤ retryAlwaysDoer.retryMax + 1 ∧
    (∀ a cause, (DoCustom retryAlwaysDoer serverErrorEnv).1 = .givingUp a cause →
      a = (DoCustom retryAlwaysDoer serverErrorEnv).2) :=
  ⟨by decide, DoCustom_bounds retryAlwaysDoer serverErrorEnv (by decide)⟩

/-- C2, counterexample: when the context is canceled during the backoff
wait, `DoCustom` returns the bare cancellation error (`return nil,
req.Context().Err()`), a non-nil terminal error that reports no attempt
count at all — against the claim that every non-nil terminal error reports
the number of attempts performed. -/
theorem DoCustom_cancel_no_attempt_count :
    (DoCustom (mkDefaultDoer 1 liveCtx) cancelInWaitEnv).1.isErr = true ∧
    (DoCustom (mkDefaultDoer 1 liveCtx) cancelInWaitEnv).1.errAttempts = none := by
  decide

/-! ## Backoff (C3) -/

/-- `wrapInt64` is the identity on `int64`-range values. -/
theorem wrapInt64_eq_self {n : Int} (h0 : -(2 ^ 63) ≤ n) (h1 : n < 2 ^ 63) :
    wrapInt64 n = n := by
  unfold wrapInt64
  rw [Int.emod_eq_of_lt (by omega) (by omega)]
  omega

/-- `float64` rounding is exact up to `2^53`. -/
theorem fl64_eq_self {m : Int} (h0 : 0 ≤ m) (h1 : m ≤ 2 ^ 53) : fl64 m = m := by
  unfold fl64
  rw [if_neg (by omega)]
  unfold fl64Nat
  rw [if_pos (by omega)]
  omega

/-- The finite case of `expBackoff`: the round-trip/clamp check on the
exact product. -/
theorem expBackoff_some (minD maxD : Int) (n : Nat) (m : Int)
    (hmf : multF minD n = some m) :
    expBackoff minD maxD n =
      if (-(2 ^ 63) ≤ m ∧ m < 2 ^ 63) ∧ ¬ (m > maxD) then m else maxD := by
  unfold expBackoff
  rw [hmf]

/-- The non-finite case of `expBackoff` returns `max`. -/
theorem expBackoff_none (minD maxD : Int) (n : Nat) (hmf : multF minD n = none) :
    expBackoff minD maxD n = maxD := by
  unfold expBackoff
  rw [hmf]

/-- In the exact regime of the float64 computation — a non-negative `min`
below `2^53` and fewer than 1024 attempts — the exponential backoff is
`min * 2^attemptNum` clamped to `max`. -/
theorem expBackoff_eq_min (minD maxD : Int) (n : Nat)
    (hmin0 : 0 ≤ minD) (hmin53 : minD < 2 ^ 53) (hmax : maxD < 2 ^ 63)
    (hn : n ≤ 1023) :
    expBackoff minD maxD n = min (2 ^ n * minD) maxD := by
  have hfl : fl64 minD = minD := fl64_eq_self hmin0 (le_of_lt hmin53)
  have hm0 : 0 ≤ 2 ^ n * minD := mul_nonneg (pow_nonneg (by norm_num) n) hmin0
  have h63 : (2 : Int) ^ 63 ≤ 2 ^ 1024 := by norm_num
  by_cases hbig : 2 ^ n * minD < 2 ^ 1024
  · have hmf : multF minD n = some (2 ^ n * minD) := by
      unfold multF
      rw [if_neg (by omega), hfl, if_pos ⟨hbig, by omega⟩]
    rw [expBackoff_some minD maxD n (2 ^ n * minD) hmf]
    by_cases hle : 2 ^ n * minD ≤ maxD
    · rw [if_pos ⟨⟨by omega, lt_of_le_of_lt hle hmax⟩, not_lt.mpr hle⟩]
      exact (min_eq_left hle).symm
    · rw [if_neg (fun hc => hc.2 (lt_of_not_le hle))]
      exact (min_eq_right (le_of_not_le hle)).symm
  · have hmf : multF minD n = none := by
      unfold multF
      rw [if_neg (by omega), hfl, if_neg (fun hc => hbig hc.1)]
    rw [expBackoff_none minD maxD n hmf]
    have hmm : maxD ≤ 2 ^ n * minD :=
      le_trans (le_of_lt (lt_of_lt_of_le hmax h63)) (le_of_not_lt hbig)
    exact (min_eq_right hmm).symm

/-- C3, counterexample: a parseable `Retry-After: 10000000000` (10^10
seconds) makes `time.Second * time.Duration(sleep)` overflow `int64`: the
computed duration wraps to `10^19 - 2^64` nanoseconds — a negative wait —
rather than the header value as a count of seconds. -/
theorem DefaultBackoff_retryAfter_wraps :
    DefaultBackoff 1000000000 30000000000 0 (some ⟨429, some "10000000000"⟩) =
      -8446744073709551616 ∧
    DefaultBackoff 1000000000 30000000000 0 (some ⟨429, some "10000000000"⟩) ≠
      1000000000 * 10000000000 ∧
    DefaultBackoff 1000000000 30000000000 0 (some ⟨429, some "10000000000"⟩) < 0 := by
  decide

/-- C3 (amended): `DefaultBackoff` returns the `Retry-After` header value,
parsed as an integer count of seconds, whenever the response has status
429, carries a parseable `Retry-After` header, and the corresponding
nanosecond count fits in `int64` (otherwise the multiplication wraps);
otherwise (no response, other status, or absent/unparseable header) it
returns `min * 2^attemptNum` clamped to `max` — in the exact regime
`0 ≤ min < 2^53`, `max < 2^63`, `attemptNum ≤ 1023` of the float64
computation — and there that value is monotonically non-decreasing in the
attempt number. -/
theorem DefaultBackoff_spec :
    (∀ (minD maxD : Int) (n : Nat) (r : HResp) (s : String) (k : Int),
        r.statusCode = 429 → r.retryAfter = some s → parseInt64 s.toList = some k →
        -(2 ^ 63) ≤ 1000000000 * k → 1000000000 * k < 2 ^ 63 →
        DefaultBackoff minD maxD n (some r) = 1000000000 * k) ∧
    (∀ (minD maxD : Int) (n : Nat) (resp : Option HResp),
        retryAfterSeconds resp = none → 0 ≤ minD → minD < 2 ^ 53 →
        maxD < 2 ^ 63 → n ≤ 1023 →
        DefaultBackoff minD maxD n resp = min (2 ^ n * minD) maxD) ∧
    (∀ (minD maxD : Int) (n m : Nat) (resp : Option HResp),
        retryAfterSeconds resp = none → 0 ≤ minD → minD < 2 ^ 53 →
        maxD < 2 ^ 63 → m ≤ 1023 → n ≤ m →
        DefaultBackoff minD maxD n resp ≤ DefaultBackoff minD maxD m resp) := by
  have key : ∀ (minD maxD : Int) (n : Nat) (resp : Option HResp),
      retryAfterSeconds resp = none → 0 ≤ minD → minD < 2 ^ 53 →
      maxD < 2 ^ 63 → n ≤ 1023 →
      DefaultBackoff minD maxD n resp = min (2 ^ n * minD) maxD := by
    intro minD maxD n resp hra hmin0 hmin53 hmax hn
    unfold DefaultBackoff
    rw [hra]
    exact expBackoff_eq_min minD maxD n hmin0 hmin53 hmax hn
  refine ⟨?_, key, ?_⟩
  · intro minD maxD n r s k h429 hh hp hlo hhi
    simp only [DefaultBackoff, retryAfterSeconds, h429, hh, if_true, Option.some_bind, if_pos]
    rw [hp]
    exact wrapInt64_eq_self hlo hhi
  · intro minD maxD n m resp hra hmin0 hmin53 hmax hm hnm
    rw [key minD maxD n resp hra hmin0 hmin53 hmax (le_trans hnm hm),
      key minD maxD m resp hra hmin0 hmin53 hmax hm]
    have hpow : (2 : Int) ^ n ≤ 2 ^ m := pow_le_pow_right₀ (by norm_num) hnm
    exact min_le_min (mul_le_mul_of_nonneg_right hpow hmin0) le_rfl

/-- Witness for `DefaultBackoff_spec`: a 429 response with `Retry-After: 2`
waits exactly 2 seconds; a 500 response at attempt 2 with min 1s / max 30s
waits 4 seconds; and attempt 2's wait is at most attempt 3's. -/
theorem DefaultBackoff_spec_witness :
    DefaultBackoff 1000000000 30000000000 5 (some ⟨429, some "2"⟩) = 2000000000 ∧
    DefaultBackoff 1000000000 30000000000 2 (some ⟨500, none⟩) =
      min (2 ^ 2 * 1000000000) 30000000000 ∧
    DefaultBackoff 1000000000 30000000000 2 (some ⟨500, none⟩) ≤
      DefaultBackoff 1000000000 30000000000 3 (some ⟨500, none⟩) :=
  ⟨DefaultBackoff_spec.1 1000000000 30000000000 5 ⟨429, some "2"⟩ "2" 2 rfl rfl (by decide)
     (by decide) (by decide),
   DefaultBackoff_spec.2.1 1000000000 30000000000 2 (some ⟨500, none⟩) (by decide) (by decide)
     (by decide) (by decide) (by decide),
   DefaultBackoff_spec.2.2 1000000000 30000000000 2 3 (some ⟨500, none⟩)
     (by decide) (by decide) (by decide) (by decide) (by decide) (by decide)⟩

/-! ## Cancellation (C4) -/

/-- C4: with the default retry policy wired in and no error handler, (1) if
the context is already canceled/expired when the policy is first
consulted, `DoCustom` stops after that one attempt and the terminal
give-up error carries exactly the context's error as its wrapped cause;
and (2) if the first consult asks for a retry, budget remains, and
cancellation fires during the backoff wait, `DoCustom` discards the
pending retry and returns the cancellation error itself. -/
theorem DoCustom_cancellation :
    (∀ (N : Int) (ctx : Nat → Option GoErr) (env : RetryEnv) (e : GoErr),
        ctx 0 = some e → env.rewind 0 = none →
        DoCustom (mkDefaultDoer N ctx) env = (.givingUp 1 (some e), 1)) ∧
    (∀ (N : Int) (ctx : Nat → Option GoErr) (env : RetryEnv) (e : GoErr),
        env.rewind 0 = none →
        ((mkDefaultDoer N ctx).checkRetry 0 (env.outcome 0).1 (env.outcome 0).2).1 = true →
        1 ≤ N → env.cancelInWait 0 = some e →
        DoCustom (mkDefaultDoer N ctx) env = (.ctxCanceledInWait e, 1)) := by
  constructor
  · intro N ctx env e hctx hrw
    have hpol : ∀ r d, (mkDefaultDoer N ctx).checkRetry 0 r d = (false, some e) := by
      intro r d
      simp [mkDefaultDoer, DefaultRetryPolicy, hctx]
    unfold DoCustom doCustomLoop
    rw [hrw]
    simp only [hpol, Bool.not_false, if_true]
    unfold doCustomFinish
    cases hd : (env.outcome 0).2 <;> simp [mkDefaultDoer]
  · intro N ctx env e hrw hchk hN hc
    obtain ⟨f, hf⟩ : ∃ f, N.toNat = f + 1 := ⟨N.toNat - 1, by omega⟩
    unfold DoCustom doCustomLoop
    rw [hrw]
    have hr : (mkDefaultDoer N ctx).retryMax = N := rfl
    rw [hr, hf]
    simp only [hchk, Bool.not_true, if_false]
    rw [hc]
    rfl

/-- Witness for `DoCustom_cancellation`: a pre-canceled context stops after
one attempt with the cancellation as cause; a cancellation during the
first backoff wait returns the cancellation error after one attempt. -/
theorem DoCustom_cancellation_witness :
    DoCustom (mkDefaultDoer 2 canceledCtx) serverErrorEnv =
      (.givingUp 1 (some .ctxCanceled), 1) ∧
    DoCustom (mkDefaultDoer 1 liveCtx) cancelInWaitEnv =
      (.ctxCanceledInWait .ctxCanceled, 1) :=
  ⟨DoCustom_cancellation.1 2 canceledCtx serverErrorEnv .ctxCanceled rfl rfl,
   DoCustom_cancellation.2 1 liveCtx cancelInWaitEnv .ctxCanceled rfl (by decide)
     (by decide) rfl⟩

/-! ## 204 responses (C6) -/

/-- C6: for every 204 response, `Do` returns no error and performs no
decoding — both targets remain unwritten — whatever combination of targets
was requested and whatever the decode environment would have done. -/
theorem RestDo_204_skips_decoding (r : HResp) (sv fv : TargetKind) (env : DecodeEnv)
    (h : r.statusCode = 204) :
    RestDo (.ok r) sv fv env =
      { resp := some r, err := none, wroteSuccess := false, wroteFailure := false } := by
  simp [RestDo, h]

/-- Witness for `RestDo_204_skips_decoding`: a 204 response with both
targets requested and a decoder that would error. -/
theorem RestDo_204_skips_decoding_witness :
    RestDo (.ok ⟨204, none⟩) .typed .typed
        ⟨DecodeOnSuccess, some (.other 1), some (.other 2)⟩ =
      { resp := some ⟨204, none⟩, err := none, wroteSuccess := false, wroteFailure := false } :=
  RestDo_204_skips_decoding ⟨204, none⟩ .typed .typed
    ⟨DecodeOnSuccess, some (.other 1), some (.other 2)⟩ rfl

/-! ## Body-slot exclusivity (C7) -/

/-- Each body-setter call preserves body-slot exclusivity. -/
theorem RestB.applyBodyOp_bodyExclusive (s : RestB) (op : BodyOp)
    (h : s.bodyExclusive) : (s.applyBodyOp op).bodyExclusive := by
  cases op with
  | body r => cases r <;> simp [RestB.applyBodyOp, RestB.Body, RestB.BodyProvider,
      RestB.bodyExclusive, BodyP.contentType] <;> exact h
  | bodyJSON p => cases p <;> simp [RestB.applyBodyOp, RestB.BodyJSON, RestB.BodyProvider,
      RestB.bodyExclusive, BodyP.contentType] <;> exact h
  | bodyForm p => cases p <;> simp [RestB.applyBodyOp, RestB.BodyForm, RestB.BodyProvider,
      RestB.bodyExclusive, BodyP.contentType] <;> exact h
  | bodyUrlEncode v => cases v <;> simp [RestB.applyBodyOp, RestB.BodyUrlEncode,
      RestB.BodyProvider, RestB.bodyExclusive, BodyP.contentType] <;> exact h
  | bodyMultipart p fp =>
    by_cases hnil : p = none ∧ fp = none
    · simpa [RestB.applyBodyOp, RestB.BodyMultipart, hnil] using h
    · simp [RestB.applyBodyOp, RestB.BodyMultipart, hnil, RestB.BodyMultipartProvider,
        RestB.bodyExclusive]
  | bodyXML p => cases p <;> simp [RestB.applyBodyOp, RestB.BodyXML, RestB.BodyProvider,
      RestB.bodyExclusive, BodyP.contentType] <;> exact h
  | bodyProvider bp =>
    cases bp with
    | none => simpa [RestB.applyBodyOp, RestB.BodyProvider] using h
    | some v =>
      simp only [RestB.applyBodyOp, RestB.BodyProvider, RestB.bodyExclusive]
      split <;> simp
  | bodyMultipartProvider mp => cases mp <;>
      simp_all [RestB.applyBodyOp, RestB.BodyMultipartProvider, RestB.bodyExclusive]

/-- C7: after any sequence of body-setter calls starting from `New()`, at
most one of the two body slots is non-nil; moreover selecting a provider
of one kind always clears the slot of the other kind. -/
theorem RestB_body_slots_exclusive :
    (∀ ops : List BodyOp, (RestB.New.applyBodyOps ops).bodyExclusive) ∧
    (∀ (s : RestB) (bp : BodyP),
        (s.BodyProvider (some bp)).multipartBodyProvider = none) ∧
    (∀ (s : RestB) (mp : MultipartBodyP),
        (s.BodyMultipartProvider (some mp)).bodyProvider = none) := by
  refine ⟨?_, ?_, ?_⟩
  · have general : ∀ (ops : List BodyOp) (s : RestB),
        s.bodyExclusive → (s.applyBodyOps ops).bodyExclusive := by
      intro ops
      induction ops with
      | nil => exact fun s h => h
      | cons op rest ih =>
        intro s h
        exact ih _ (RestB.applyBodyOp_bodyExclusive s op h)
    intro ops
    exact general ops RestB.New (Or.inl rfl)
  · intro s bp
    simp only [RestB.BodyProvider]
    split <;> rfl
  · intro s mp
    rfl

/-! ## Nil body-setter arguments (C8) -/

/-- C8: every body setter, given a nil argument, returns the builder with
all its fields unchanged — in particular the existing body provider is
kept and no Content-Type header is written. -/
theorem RestB_nil_body_args_identity (s : RestB) :
    s.Body none = s ∧ s.BodyJSON none = s ∧ s.BodyForm none = s ∧
    s.BodyUrlEncode none = s ∧ s.BodyMultipart none none = s ∧
    s.BodyXML none = s ∧ s.BodyProvider none = s ∧
    s.BodyMultipartProvider none = s := by
  refine ⟨rfl, rfl, rfl, rfl, ?_, rfl, rfl, rfl⟩
  simp [RestB.BodyMultipart]

/-! ## URL resolution lemmas (toward C5) -/

/-- `strings.Split` never returns an empty list. -/
theorem splitOnSlash_ne_nil (p : Str) : splitOnSlash p ≠ [] := by
  cases p with
  | nil => simp [splitOnSlash]
  | cons c cs =>
    unfold splitOnSlash
    by_cases h : c = '/'
    · simp [h]
    · simp only [h, if_false]
      cases hs : splitOnSlash cs <;> simp

/-- Splitting on `/` and rejoining is the identity. -/
theorem unsplit_split (p : Str) : unsplitSlash (splitOnSlash p) = p := by
  induction p with
  | nil => rfl
  | cons c cs ih =>
    unfold splitOnSlash
    by_cases h : c = '/'
    · subst h
      simp only [if_pos rfl]
      cases hs : splitOnSlash cs with
      | nil => exact absurd hs (splitOnSlash_ne_nil cs)
      | cons s rest =>
        rw [hs] at ih
        unfold unsplitSlash at ih ⊢
        simp only [List.map_cons, List.flatten_cons, List.nil_append]
        rw [← ih]
        rfl
    · simp only [h, if_false]
      cases hs : splitOnSlash cs with
      | nil => exact absurd hs (splitOnSlash_ne_nil cs)
      | cons s rest =>
        rw [hs] at ih
        unfold unsplitSlash at ih ⊢
        simpa using congrArg (c :: ·) ih

/-- The last element of a non-empty list, defaulted, is a member. -/
theorem getLastD_mem (l : List Str) (h : l ≠ []) : l.getLast?.getD [] ∈ l := by
  induction l with
  | nil => exact absurd rfl h
  | cons a t ih =>
    cases t with
    | nil => simp [List.getLast?]
    | cons b t2 =>
      rw [List.getLast?_cons_cons]
      exact List.mem_cons_of_mem a (ih (by simp))

/-- On dot-free segments the `resolvePath` loop just re-joins them with
slashes onto the accumulator. -/
theorem rpLoop_noDots (segs : List Str)
    (h : ∀ seg ∈ segs, seg ≠ ['.'] ∧ seg ≠ ['.', '.']) (acc : Str) :
    rpLoop segs acc false = acc ++ (segs.map (fun e => '/' :: e)).flatten := by
  induction segs generalizing acc with
  | nil =>
    rw [show rpLoop [] acc false = acc from rfl]
    simp
  | cons s rest ih =>
    have hs := h s (by simp)
    unfold rpLoop
    rw [if_neg hs.1, if_neg hs.2]
    rw [ih (fun seg hm => h seg (by simp [hm]))]
    simp

/-- Resolving a non-empty, dot-segment-free relative path against an empty
base path just prepends a slash. -/
theorem resolvePath_noDots (p : Str) (h0 : p ≠ []) (h1 : p.head? ≠ some '/')
    (h2 : ∀ seg ∈ splitOnSlash p, seg ≠ ['.'] ∧ seg ≠ ['.', '.']) :
    resolvePath [] p = '/' :: p := by
  simp only [resolvePath]
  rw [if_neg h0, if_pos h1]
  have hup : upToLastSlash ([] : Str) ++ p = p := rfl
  rw [hup, if_neg h0]
  obtain ⟨s, rest, hs⟩ : ∃ s rest, splitOnSlash p = s :: rest := by
    cases hq : splitOnSlash p with
    | nil => exact absurd hq (splitOnSlash_ne_nil p)
    | cons s rest => exact ⟨s, rest, rfl⟩
  have hld := h2 _ (getLastD_mem _ (splitOnSlash_ne_nil p))
  rw [hs]
  rw [hs] at hld
  have hfix : ¬((s :: rest).getLast?.getD [] = ['.'] ∨
      (s :: rest).getLast?.getD [] = ['.', '.']) := by
    rintro (hx | hx)
    · exact hld.1 hx
    · exact hld.2 hx
  rw [if_neg hfix]
  have hsd : s ≠ ['.'] ∧ s ≠ ['.', '.'] := by
    apply h2
    rw [hs]
    simp
  have hrest : ∀ seg ∈ rest, seg ≠ ['.'] ∧ seg ≠ ['.', '.'] := by
    intro seg hm
    apply h2
    rw [hs]
    simp [hm]
  unfold rpLoop
  rw [if_neg hsd.1, if_neg hsd.2]
  simp only [if_true, List.nil_append]
  rw [rpLoop_noDots rest hrest]
  have hjoin : s ++ (rest.map (fun e => '/' :: e)).flatten = p := by
    have hu := unsplit_split p
    rw [hs] at hu
    simpa [unsplitSlash] using hu
  rw [hjoin]
  obtain ⟨c, cs, rfl⟩ : ∃ c cs, p = c :: cs := by
    cases p with
    | nil => exact absurd rfl h0
    | cons c cs => exact ⟨c, cs, rfl⟩
  have hc : c ≠ '/' := by
    intro hx
    exact h1 (by simp [hx])
  have htk : ¬(List.take 2 ('/' :: c :: cs) = ['/', '/']) := by simp [hc]
  rw [if_neg htk]

/-! ## Character-class facts -/

/-- Letters are not control characters. -/
theorem isCtl_eq_false_of_isAlpha {c : Char} (h : c.isAlpha = true) : isCtl c = false := by
  simp [Char.isAlpha, Char.isUpper, Char.isLower, Char.le_def] at h
  simp [isCtl]
  rcases h with ⟨h1, h2⟩ | ⟨h1, h2⟩
  · have h1' : 65 ≤ c.toNat := h1
    have h2' : c.toNat ≤ 90 := h2
    omega
  · have h1' : 97 ≤ c.toNat := h1
    have h2' : c.toNat ≤ 122 := h2
    omega

/-- Digits are not control characters. -/
theorem isCtl_eq_false_of_isDigit {c : Char} (h : c.isDigit = true) : isCtl c = false := by
  simp [Char.isDigit, Char.le_def] at h
  obtain ⟨h1, h2⟩ := h
  have h1' : 48 ≤ c.toNat := h1
  have h2' : c.toNat ≤ 57 := h2
  simp [isCtl]
  omega

/-- Letters and digits are not control characters. -/
theorem isCtl_eq_false_of_isAlphanum {c : Char} (h : c.isAlphanum = true) :
    isCtl c = false := by
  simp [Char.isAlphanum] at h
  rcases h with h | h
  · exact isCtl_eq_false_of_isAlpha h
  · exact isCtl_eq_false_of_isDigit h

/-- Go's `strings.ToLower` fixes an already-lowercase letter. -/
theorem toLower_eq_self_of_isLower {c : Char} (h : c.isLower = true) : c.toLower = c := by
  simp [Char.isLower, Char.le_def] at h
  obtain ⟨h1, h2⟩ := h
  have h1' : 97 ≤ c.toNat := h1
  simp [Char.toLower]
  intro hA hZ
  exfalso
  have hZ' : c.toNat ≤ 90 := hZ
  omega

/-- Lowercase letters are letters. -/
theorem isAlpha_of_isLower {c : Char} (h : c.isLower = true) : c.isAlpha = true := by
  simp [Char.isAlpha, h]

/-- Host characters are not slashes. -/
theorem hostChar_ne_slash {c : Char} (h : hostChar c = true) : c ≠ '/' := by
  intro hx
  subst hx
  simp [hostChar] at h

/-- Host characters are not control characters. -/
theorem isCtl_eq_false_of_hostChar {c : Char} (h : hostChar c = true) : isCtl c = false := by
  simp [hostChar] at h
  rcases h with (h | h) | h
  · exact isCtl_eq_false_of_isAlphanum h
  · subst h; decide
  · subst h; decide

/-- Path characters are not colons. -/
theorem pathChar_ne_colon {c : Char} (h : pathChar c = true) : c ≠ ':' := by
  intro hx
  subst hx
  simp [pathChar] at h

/-- Path characters are not control characters. -/
theorem isCtl_eq_false_of_pathChar {c : Char} (h : pathChar c = true) : isCtl c = false := by
  simp [pathChar] at h
  rcases h with (((((h | h) | h) | h) | h) | h)
  · exact isCtl_eq_false_of_isAlphanum h
  · subst h; decide
  · subst h; decide
  · subst h; decide
  · subst h; decide
  · subst h; decide

/-! ## `parseURL` on the two shapes used by the appended-path property -/

/-- The scheme scan consumes scheme characters up to the colon. -/
theorem getSchemeLoop_found (l : Str) (hl : ∀ c ∈ l, isSchemeChar c = true) :
    ∀ pre rest, getSchemeLoop pre (l ++ ':' :: rest) = .found (pre ++ l) rest := by
  induction l with
  | nil =>
    intro pre rest
    simp [getSchemeLoop]
  | cons c cs ih =>
    intro pre rest
    have hc := hl c (by simp)
    have hcne : c ≠ ':' := by
      intro hx
      subst hx
      exact absurd hc (by decide)
    rw [List.cons_append]
    unfold getSchemeLoop
    rw [if_neg hcne, if_pos hc, ih (fun x hx => hl x (by simp [hx]))]
    simp

/-- With no colon in sight the scheme scan reports no scheme. -/
theorem getSchemeLoop_noColon (l : Str) (h : ':' ∉ l) :
    ∀ pre, getSchemeLoop pre l = .noScheme := by
  induction l with
  | nil => intro pre; rfl
  | cons c cs ih =>
    intro pre
    have hcne : c ≠ ':' := fun hx => h (by simp [hx])
    unfold getSchemeLoop
    rw [if_neg hcne]
    by_cases hsc : isSchemeChar c = true
    · rw [if_pos hsc, ih (fun hx => h (by simp [hx]))]
    · rw [if_neg hsc]

/-- A string with no colon at all has no scheme. -/
theorem getScheme_noColon (p : Str) (h : ':' ∉ p) : getScheme p = .noScheme := by
  cases p with
  | nil => rfl
  | cons c cs =>
    have hcne : c ≠ ':' := fun hx => h (by simp [hx])
    have hdef : getScheme (c :: cs) =
        if c = ':' then .schemeMissing
        else if c.isAlpha = true then getSchemeLoop [c] cs else .noScheme := rfl
    rw [hdef, if_neg hcne]
    by_cases ha : c.isAlpha = true
    · rw [if_pos ha, getSchemeLoop_noColon cs (fun hx => h (by simp [hx]))]
    · rw [if_neg ha]

/-- `url.Parse` on `scheme://host` (lowercase alphabetic scheme, non-empty
slash-free host): scheme and host parse into their fields, the path is
empty. -/
theorem parseURL_schemeHost (scheme host : Str) (hs0 : scheme ≠ [])
    (hs1 : ∀ c ∈ scheme, c.isLower = true)
    (hh1 : ∀ c ∈ host, hostChar c = true) :
    parseURL (scheme ++ ':' :: '/' :: '/' :: host) =
      some { scheme := scheme, host := host } := by
  have hctl : ¬((scheme ++ ':' :: '/' :: '/' :: host).any isCtl = true) := by
    rw [List.any_eq_true]
    rintro ⟨c, hm, hc⟩
    simp only [List.mem_append, List.mem_cons] at hm
    rcases hm with hm | hm | hm | hm | hm
    · rw [isCtl_eq_false_of_isAlpha (isAlpha_of_isLower (hs1 c hm))] at hc
      cases hc
    · subst hm; cases hc
    · subst hm; cases hc
    · subst hm; cases hc
    · rw [isCtl_eq_false_of_hostChar (hh1 c hm)] at hc
      cases hc
  obtain ⟨c, cs, rfl⟩ : ∃ c cs, scheme = c :: cs := by
    cases scheme with
    | nil => exact absurd rfl hs0
    | cons c cs => exact ⟨c, cs, rfl⟩
  have hca : c.isAlpha = true := isAlpha_of_isLower (hs1 c (by simp))
  have hcc : c ≠ ':' := by
    intro hx
    subst hx
    exact absurd hca (by decide)
  have hgs : getScheme ((c :: cs) ++ ':' :: '/' :: '/' :: host) =
      .found (c :: cs) ('/' :: '/' :: host) := by
    rw [List.cons_append]
    have hdef : getScheme (c :: (cs ++ ':' :: '/' :: '/' :: host)) =
        if c = ':' then .schemeMissing
        else if c.isAlpha = true then getSchemeLoop [c] (cs ++ ':' :: '/' :: '/' :: host)
        else .noScheme := rfl
    rw [hdef, if_neg hcc, if_pos hca]
    have := getSchemeLoop_found cs
      (fun x hx => by
        have hl := hs1 x (by simp [hx])
        simp [isSchemeChar, isAlpha_of_isLower hl]) [c] ('/' :: '/' :: host)
    simpa using this
  unfold parseURL
  rw [if_neg hctl, hgs]
  have hlow : (c :: cs).map Char.toLower = c :: cs := by
    rw [List.map_congr_left (fun x hx => toLower_eq_self_of_isLower (hs1 x hx))]
    simp
  have htw : ('/' :: host).takeWhile (fun x => x ≠ '/') = [] := by
    simp [List.takeWhile]
  have htw2 : host.takeWhile (fun x => x ≠ '/') = host :=
    List.takeWhile_eq_self_iff.mpr
      (fun x hx => by simp [hostChar_ne_slash (hh1 x hx)])
  have hdw : host.dropWhile (fun x => x ≠ '/') = [] :=
    List.dropWhile_eq_nil_iff.mpr
      (fun x hx => by simp [hostChar_ne_slash (hh1 x hx)])
  simp [hlow, htw2, hdw]
  exact fun x hx => hostChar_ne_slash (hh1 x hx)

/-- `url.Parse` on a relative path made of plain path characters not
starting with a slash: everything lands in the path field. -/
theorem parseURL_relPath (p : Str) (h1 : p.head? ≠ some '/')
    (hpc : ∀ c ∈ p, pathChar c = true) :
    parseURL p = some { path := p } := by
  have hnc : ':' ∉ p := fun hm => pathChar_ne_colon (hpc _ hm) rfl
  have hctl : ¬(p.any isCtl = true) := by
    rw [List.any_eq_true]
    rintro ⟨c, hm, hc⟩
    rw [isCtl_eq_false_of_pathChar (hpc c hm)] at hc
    cases hc
  unfold parseURL
  rw [if_neg hctl, getScheme_noColon p hnc]
  have hcont : ((p.takeWhile (fun c => c ≠ '/')).contains ':') = false := by
    simp [List.contains]
    intro hmem
    exact hnc ((List.takeWhile_sublist _).subset hmem)
  rw [if_neg (by rintro ⟨-, hx⟩; rw [hcont] at hx; cases hx)]
  have htk2 : ¬(p.take 2 = ['/', '/'] ∧ p.take 3 ≠ ['/', '/', '/']) := by
    rintro ⟨hx, -⟩
    cases p with
    | nil => cases hx
    | cons c cs =>
      have hc : c ≠ '/' := by
        intro hcc
        exact h1 (by simp [hcc])
      rw [show List.take 2 (c :: cs) = c :: List.take 1 cs from rfl] at hx
      injection hx with hx1 _
      exact hc hx1
  rw [if_neg htk2]

/-! ## `Base` + `Path` concatenation (C5) -/

/-- C5, counterexample: `Base("https://a.io/foo")` (no trailing slash)
followed by `Path("bar")` (no leading slash) resolves by reference
resolution, which replaces the base's last path segment: the raw URL
becomes `https://a.io/bar`, not `base + "/" + path` — exactly the
behavior the repository's own `TestPathSetter` expects. -/
theorem Base_Path_counterexample :
    ((RestURL.Base {} ("https://a.io/foo".toList)).Path ("bar".toList)).rawURL =
      "https://a.io/bar".toList ∧
    ((RestURL.Base {} ("https://a.io/foo".toList)).Path ("bar".toList)).rawURL ≠
      "https://a.io/foo".toList ++ '/' :: ("bar".toList) := by
  decide

/-- C5 (amended): for every base URL of the shape `scheme://host` — in
particular with an empty path component and no trailing slash — with a
non-empty lowercase-alphabetic scheme and a host of plain host characters,
and every non-empty relative path without a leading slash, made of plain
path characters, with no `.` or `..` segments, `Base` followed by `Path`
yields exactly `base + "/" + path`. -/
theorem Base_Path_appends (scheme host p : Str) (hs0 : scheme ≠ [])
    (hs1 : ∀ c ∈ scheme, c.isLower = true)
    (hh1 : ∀ c ∈ host, hostChar c = true)
    (hp0 : p ≠ []) (hp1 : p.head? ≠ some '/')
    (hp2 : ∀ c ∈ p, pathChar c = true)
    (hp3 : ∀ seg ∈ splitOnSlash p, seg ≠ ['.'] ∧ seg ≠ ['.', '.']) :
    ((RestURL.Base {} (scheme ++ ':' :: '/' :: '/' :: host)).Path p).rawURL =
      (scheme ++ ':' :: '/' :: '/' :: host) ++ '/' :: p := by
  have hbase := parseURL_schemeHost scheme host hs0 hs1 hh1
  have hpath := parseURL_relPath p hp1 hp2
  have hres := resolvePath_noDots p hp0 hp1 hp3
  unfold RestURL.Base
  rw [hbase]
  have hrr : resolveReference { scheme := scheme, host := host } { path := p } =
      { scheme := scheme, host := host, path := '/' :: p } := by
    unfold resolveReference
    rw [if_neg (by simp), if_neg (by simp)]
    simp [hres]
  have hrender : renderURL { scheme := scheme, host := host, path := '/' :: p } =
      (scheme ++ ':' :: '/' :: '/' :: host) ++ '/' :: p := by
    unfold renderURL
    rw [if_pos hs0, if_neg (by simp)]
    rw [if_pos (Or.inl hs0), if_neg (by simp)]
    rw [if_neg (by simp)]
    simp [hs0]
  unfold RestURL.Path
  rw [hpath]
  show fixTrailingSlash p
      (renderURL (resolveReference { scheme := scheme, host := host } { path := p })) =
    (scheme ++ ':' :: '/' :: '/' :: host) ++ '/' :: p
  rw [hrr, hrender]
  unfold fixTrailingSlash
  rw [if_neg]
  rintro ⟨ha, hb⟩
  apply hb
  rw [List.getLast?_append_of_ne_nil _ (show '/' :: p ≠ [] by simp)]
  rw [show ('/' : Char) :: p = ['/'] ++ p from rfl]
  rw [List.getLast?_append_of_ne_nil _ hp0]
  exact ha

/-- Witness for `Base_Path_appends`: `Base("https://a.io")` then
`Path("v1/blocks")` yields `https://a.io/v1/blocks`. -/
theorem Base_Path_appends_witness :
    ((RestURL.Base {} ("https".toList ++ ':' :: '/' :: '/' :: "a.io".toList)).Path
        ("v1/blocks".toList)).rawURL =
      ("https".toList ++ ':' :: '/' :: '/' :: "a.io".toList) ++ '/' :: "v1/blocks".toList :=
  Base_Path_appends "https".toList "a.io".toList "v1/blocks".toList
    (by decide) (by decide) (by decide) (by decide) (by decide) (by decide) (by decide)

/-! ## `Path` on unparsable input (C10) -/

/-- C10: when the path string fails URL parsing, `Path` returns the
builder with `baseURL` and `rawURL` exactly as they were; the model's
`Path` (like the Go method) has no error channel at all, so no error is
reported at this point. -/
theorem Path_parse_failure_identity (s : RestURL) (p : Str) (h : parseURL p = none) :
    s.Path p = s := by
  unfold RestURL.Path
  cases hb : s.baseURL with
  | none => rw [h]
  | some b => rw [h]

/-- Witness for `Path_parse_failure_identity`: `":foo"` fails parsing
(colon in the first path segment of a scheme-less URL) and leaves the
builder untouched. -/
theorem Path_parse_failure_identity_witness :
    parseURL (":foo".toList) = none ∧
    (RestURL.Base {} ("https://a.io".toList)).Path (":foo".toList) =
      RestURL.Base {} ("https://a.io".toList) :=
  ⟨by decide,
   Path_parse_failure_identity (RestURL.Base {} ("https://a.io".toList))
     (":foo".toList) (by decide)⟩

/-! ## Clone isolation (C9) -/

/-- C9, counterexample: build a builder with three `AddHeader("K", ·)`
calls (its `K` slice then has length 3 and capacity 4), clone it, append
`"x"` through the clone — the clone sees `[a,b,c,x]` while the original
still sees `[a,b,c]` — then append `"y"` through the original: the
original's in-place append overwrites the shared backing array, and the
clone's observed `K` values silently change to `[a,b,c,y]`.  Mutating the
original does change the clone's observed headers, against the claim's
second half. -/
theorem Clone_header_aliasing :
    (let wb := applyHOps HWorld.init HeapRest.new
      [.addHeader "K" "a", .addHeader "K" "b", .addHeader "K" "c"]
     let wc := cloneHeap wb.1 wb.2
     let afterX := applyHOp wc.1 wc.2 (.addHeader "K" "x")
     let afterY := applyHOp afterX.1 wb.2 (.addHeader "K" "y")
     obsHeader afterX.1 afterX.2 "K" = ["a", "b", "c", "x"] ∧
     obsHeader afterY.1 afterX.2 "K" = ["a", "b", "c", "y"] ∧
     obsHeader afterY.1 afterX.2 "K" ≠ obsHeader afterX.1 afterX.2 "K") := by
  decide

/-- Writing at or beyond the viewed length does not change the view. -/
theorem take_set_of_le {α} (l : List α) (i n : Nat) (v : α) (h : n ≤ i) :
    (l.set i v).take n = l.take n := by
  induction l generalizing i n with
  | nil => simp
  | cons a t ih =>
    cases i with
    | zero =>
      have : n = 0 := Nat.le_zero.mp h
      simp [this]
    | succ i2 =>
      cases n with
      | zero => simp
      | succ n2 =>
        simp only [List.set_cons_succ, List.take_succ_cons]
        rw [ih i2 n2 (by omega)]

/-- Allocation leaves existing arrays unchanged. -/
theorem alloc_arrays_of_lt {α} (st : Store α) (content : List α) (i : Nat)
    (h : i < st.next) : (st.alloc content).1.arrays i = st.arrays i := by
  simp only [Store.alloc]
  rw [if_neg (by omega)]

/-- Writing one array leaves the others unchanged. -/
theorem write_arrays_of_ne {α} (st : Store α) (id idx : Nat) (v : α) (i : Nat)
    (h : i ≠ id) : (st.write id idx v).arrays i = st.arrays i := by
  simp only [Store.write]
  rw [if_neg h]

/-- The fresh builder is well-formed in the fresh world. -/
theorem wf_init : HeapRest.wf HWorld.init HeapRest.new := by
  refine ⟨le_refl 1, le_refl 1, ?_, ?_, ?_, ?_⟩ <;>
    simp [HWorld.init, HeapRest.new]

/-- Well-formedness only mentions the allocation frontiers, so it is
stable under growing them. -/
theorem wf_mono {w w' : HWorld} {r : HeapRest} (h : HeapRest.wf w r)
    (h1 : w.hs.next ≤ w'.hs.next) (h2 : w.qs.next ≤ w'.qs.next) :
    HeapRest.wf w' r := by
  obtain ⟨a1, a2, a3, a4, a5, a6⟩ := h
  exact ⟨by omega, by omega, fun k => by have := a3 k; omega, by omega, a5, a6⟩

/-- Mutations only grow the allocation frontiers. -/
theorem applyHOp_next_le (w : HWorld) (r : HeapRest) (op : HOp) :
    w.hs.next ≤ (applyHOp w r op).1.hs.next ∧
    w.qs.next ≤ (applyHOp w r op).1.qs.next := by
  cases op with
  | addHeader k v =>
    by_cases hc : (r.header k).len < (r.header k).cap <;>
      simp [applyHOp, appendSlice, hc, Store.write, Store.alloc]
  | setHeader k v => simp [applyHOp, Store.alloc]
  | queryStruct q =>
    by_cases hc : r.queryStructs.len < r.queryStructs.cap <;>
      simp [applyHOp, appendSlice, hc, Store.write, Store.alloc]


/-- `append` with spare capacity writes in place. -/
theorem appendSlice_inplace {α} (pad : α) (st : Store α) (s : GoSlice) (v : α)
    (hc : s.len < s.cap) :
    appendSlice pad st s v = (st.write s.arr s.len v, ⟨s.arr, s.len + 1, s.cap⟩) := by
  simp [appendSlice, hc]

/-- `append` on a full slice reallocates with doubled capacity. -/
theorem appendSlice_grow {α} (pad : α) (st : Store α) (s : GoSlice) (v : α)
    (hc : ¬ s.len < s.cap) :
    appendSlice pad st s v =
      ((st.alloc ((st.arrays s.arr).take s.len ++
          v :: List.replicate (growCap s.cap - (s.len + 1)) pad)).1,
       ⟨st.next, s.len + 1, growCap s.cap⟩) := by
  simp [appendSlice, hc, Store.alloc]

/-- Pointwise update of the header map. -/
theorem hdrUpd_apply (f : String → GoSlice) (k : String) (s : GoSlice) (x : String) :
    (fun k2 => if k2 = k then s else f k2) x = if x = k then s else f x := rfl

/-- Mutations preserve well-formedness. -/
theorem wf_applyHOp {w : HWorld} {r : HeapRest} (h : HeapRest.wf w r) (op : HOp) :
    HeapRest.wf (applyHOp w r op).1 (applyHOp w r op).2 := by
  obtain ⟨a1, a2, a3, a4, a5, a6⟩ := h
  cases op with
  | addHeader k v =>
    by_cases hc : (r.header k).len < (r.header k).cap
    · rw [show applyHOp w r (.addHeader k v) =
          ({ w with hs := w.hs.write (r.header k).arr (r.header k).len v },
           { r with header := fun k2 => if k2 = k then ⟨(r.header k).arr, (r.header k).len + 1, (r.header k).cap⟩
                    else r.header k2 }) from by
        simp [applyHOp, appendSlice_inplace _ _ _ _ hc]]
      refine ⟨a1, a2, ?_, a4, ?_, ?_⟩
      · intro x
        simp only [hdrUpd_apply]
        split_ifs with hx
        · exact a3 k
        · exact a3 x
      · intro x
        simp only [hdrUpd_apply]
        split_ifs with hx
        · intro h0
          exact absurd hc (by have := (a5 k h0).2; omega)
        · exact a5 x
      · intro x y hxy
        simp only [hdrUpd_apply]
        split_ifs with hx hy hy
        · subst hx; subst hy; exact absurd rfl hxy
        · intro he
          exact a6 k y (fun hq => hxy (hx.trans hq)) he
        · intro he
          exact a6 x k hx he
        · exact a6 x y hxy
    · rw [show applyHOp w r (.addHeader k v) =
          ({ w with hs := (w.hs.alloc ((w.hs.arrays (r.header k).arr).take (r.header k).len ++
               v :: List.replicate (growCap (r.header k).cap - ((r.header k).len + 1)) "")).1 },
           { r with header := fun k2 => if k2 = k then
                ⟨w.hs.next, (r.header k).len + 1, growCap (r.header k).cap⟩
              else r.header k2 }) from by
        simp [applyHOp, appendSlice_grow _ _ _ _ hc]]
      refine ⟨?_, a2, ?_, a4, ?_, ?_⟩
      · simp [Store.alloc]
      · intro x
        simp only [hdrUpd_apply, Store.alloc]
        split_ifs with hx
        · simp
        · have := a3 x
          simp
          omega
      · intro x
        simp only [hdrUpd_apply]
        split_ifs with hx
        · intro h0
          exfalso
          have h0' : w.hs.next = 0 := h0
          omega
        · exact a5 x
      · intro x y hxy
        simp only [hdrUpd_apply]
        split_ifs with hx hy hy
        · subst hx; subst hy; exact absurd rfl hxy
        · intro he
          exfalso
          have := a3 y
          have he' : w.hs.next = (r.header y).arr := he
          omega
        · intro he
          exfalso
          have := a3 x
          have he' : (r.header x).arr = w.hs.next := he
          omega
        · exact a6 x y hxy
  | setHeader k v =>
    rw [show applyHOp w r (.setHeader k v) =
        ({ w with hs := (w.hs.alloc [v]).1 },
         { r with header := fun k2 => if k2 = k then ⟨w.hs.next, 1, 1⟩ else r.header k2 })
      from by simp [applyHOp, Store.alloc]]
    refine ⟨?_, a2, ?_, a4, ?_, ?_⟩
    · simp [Store.alloc]
    · intro x
      simp only [hdrUpd_apply, Store.alloc]
      split_ifs with hx
      · simp
      · have := a3 x
        simp
        omega
    · intro x
      simp only [hdrUpd_apply]
      split_ifs with hx
      · intro h0
        exfalso
        have h0' : w.hs.next = 0 := h0
        omega
      · exact a5 x
    · intro x y hxy
      simp only [hdrUpd_apply]
      split_ifs with hx hy hy
      · subst hx; subst hy; exact absurd rfl hxy
      · intro he
        exfalso
        have := a3 y
        have he' : w.hs.next = (r.header y).arr := he
        omega
      · intro he
        exfalso
        have := a3 x
        have he' : (r.header x).arr = w.hs.next := he
        omega
      · exact a6 x y hxy
  | queryStruct q =>
    by_cases hc : r.queryStructs.len < r.queryStructs.cap
    · rw [show applyHOp w r (.queryStruct q) =
          ({ w with qs := w.qs.write r.queryStructs.arr r.queryStructs.len q },
           { r with queryStructs := ⟨r.queryStructs.arr, r.queryStructs.len + 1, r.queryStructs.cap⟩ })
        from by simp [applyHOp, appendSlice_inplace _ _ _ _ hc]]
      exact ⟨a1, a2, a3, a4, a5, a6⟩
    · rw [show applyHOp w r (.queryStruct q) =
          ({ w with qs := (w.qs.alloc ((w.qs.arrays r.queryStructs.arr).take r.queryStructs.len ++
               q :: List.replicate (growCap r.queryStructs.cap - (r.queryStructs.len + 1)) 0)).1 },
           { r with queryStructs := ⟨w.qs.next, r.queryStructs.len + 1, growCap r.queryStructs.cap⟩ })
        from by simp [applyHOp, appendSlice_grow _ _ _ _ hc]]
      refine ⟨a1, ?_, a3, ?_, a5, a6⟩
      · simp [Store.alloc]
      · simp [Store.alloc]

/-- Well-formedness is preserved by any mutation sequence. -/
theorem wf_applyHOps {w : HWorld} {r : HeapRest} (h : HeapRest.wf w r) (ops : List HOp) :
    HeapRest.wf (applyHOps w r ops).1 (applyHOps w r ops).2 := by
  induction ops generalizing w r with
  | nil => exact h
  | cons op rest ih =>
    unfold applyHOps
    exact ih (wf_applyHOp h op)

/-- Mutation sequences only grow the allocation frontiers. -/
theorem applyHOps_next_le (w : HWorld) (r : HeapRest) (ops : List HOp) :
    w.hs.next ≤ (applyHOps w r ops).1.hs.next ∧
    w.qs.next ≤ (applyHOps w r ops).1.qs.next := by
  induction ops generalizing w r with
  | nil => exact ⟨le_refl _, le_refl _⟩
  | cons op rest ih =>
    unfold applyHOps
    have h1 := applyHOp_next_le w r op
    have h2 := ih (applyHOp w r op).1 (applyHOp w r op).2
    exact ⟨h1.1.trans h2.1, h1.2.trans h2.2⟩

/-- One clone-side mutation preserves the part-1 invariant: in-place
appends land at an index at or past the original's slice length, and
reallocations land in fresh arrays the original never references. -/
theorem cloneInv_step {w0 : HWorld} {b : HeapRest} {w : HWorld} {c : HeapRest}
    (hwf : HeapRest.wf w0 b) (hinv : cloneInv w0 b w c) (op : HOp) :
    cloneInv w0 b (applyHOp w c op).1 (applyHOp w c op).2 := by
  obtain ⟨f1, f2, f3, f4, f5, f6⟩ := hwf
  obtain ⟨i1, i2, i3, i4, i5, i6⟩ := hinv
  cases op with
  | addHeader k v =>
    by_cases hc : (c.header k).len < (c.header k).cap
    · rw [show applyHOp w c (.addHeader k v) =
          ({ w with hs := w.hs.write (c.header k).arr (c.header k).len v },
           { c with header := fun k2 => if k2 = k then
                ⟨(c.header k).arr, (c.header k).len + 1, (c.header k).cap⟩
              else c.header k2 }) from by
        simp [applyHOp, appendSlice_inplace _ _ _ _ hc]]
      refine ⟨i1, i2, ?_, i4, ?_, i6⟩
      · intro x
        rw [← i3 x]
        unfold obsHeader GoSlice.view
        simp only [Store.write]
        by_cases he : (b.header x).arr = (c.header k).arr
        · rw [if_pos he, he]
          exact take_set_of_le _ _ _ _ (i5 k x he.symm)
        · rw [if_neg he]
      · intro x y
        simp only [hdrUpd_apply]
        split_ifs with hx
        · intro he
          exact Nat.le_succ_of_le (i5 k y he)
        · exact i5 x y
    · rw [show applyHOp w c (.addHeader k v) =
          ({ w with hs := (w.hs.alloc ((w.hs.arrays (c.header k).arr).take (c.header k).len ++
               v :: List.replicate (growCap (c.header k).cap - ((c.header k).len + 1)) "")).1 },
           { c with header := fun k2 => if k2 = k then
                ⟨w.hs.next, (c.header k).len + 1, growCap (c.header k).cap⟩
              else c.header k2 }) from by
        simp [applyHOp, appendSlice_grow _ _ _ _ hc]]
      refine ⟨?_, i2, ?_, i4, ?_, i6⟩
      · simp [Store.alloc]
        omega
      · intro x
        rw [← i3 x]
        unfold obsHeader GoSlice.view
        simp only [Store.alloc]
        rw [if_neg (by have := f3 x; omega)]
      · intro x y
        simp only [hdrUpd_apply]
        split_ifs with hx
        · intro he
          exfalso
          have he2 : w.hs.next = (b.header y).arr := he
          have := f3 y
          omega
        · exact i5 x y
  | setHeader k v =>
    rw [show applyHOp w c (.setHeader k v) =
        ({ w with hs := (w.hs.alloc [v]).1 },
         { c with header := fun k2 => if k2 = k then ⟨w.hs.next, 1, 1⟩ else c.header k2 })
      from by simp [applyHOp, Store.alloc]]
    refine ⟨?_, i2, ?_, i4, ?_, i6⟩
    · simp [Store.alloc]
      omega
    · intro x
      rw [← i3 x]
      unfold obsHeader GoSlice.view
      simp only [Store.alloc]
      rw [if_neg (by have := f3 x; omega)]
    · intro x y
      simp only [hdrUpd_apply]
      split_ifs with hx
      · intro he
        exfalso
        have he2 : w.hs.next = (b.header y).arr := he
        have := f3 y
        omega
      · exact i5 x y
  | queryStruct q =>
    by_cases hc : c.queryStructs.len < c.queryStructs.cap
    · rw [show applyHOp w c (.queryStruct q) =
          ({ w with qs := w.qs.write c.queryStructs.arr c.queryStructs.len q },
           { c with queryStructs :=
              ⟨c.queryStructs.arr, c.queryStructs.len + 1, c.queryStructs.cap⟩ })
        from by simp [applyHOp, appendSlice_inplace _ _ _ _ hc]]
      refine ⟨i1, i2, i3, ?_, i5, i6⟩
      rw [← i4]
      unfold obsQuery GoSlice.view
      simp only [Store.write]
      rw [if_neg (fun hq => i6 hq.symm)]
    · rw [show applyHOp w c (.queryStruct q) =
          ({ w with qs := (w.qs.alloc ((w.qs.arrays c.queryStructs.arr).take c.queryStructs.len ++
               q :: List.replicate (growCap c.queryStructs.cap - (c.queryStructs.len + 1)) 0)).1 },
           { c with queryStructs :=
              ⟨w.qs.next, c.queryStructs.len + 1, growCap c.queryStructs.cap⟩ })
        from by simp [applyHOp, appendSlice_grow _ _ _ _ hc]]
      refine ⟨i1, ?_, i3, ?_, i5, ?_⟩
      · simp [Store.alloc]
        omega
      · rw [← i4]
        unfold obsQuery GoSlice.view
        simp only [Store.alloc]
        rw [if_neg (by have := f4; omega)]
      · intro hq
        have hq2 : w.qs.next = b.queryStructs.arr := hq
        have := f4
        omega

/-- The part-1 invariant holds after any clone-side mutation sequence. -/
theorem cloneInv_applyHOps {w0 : HWorld} {b : HeapRest} {w : HWorld} {c : HeapRest}
    (hwf : HeapRest.wf w0 b) (hinv : cloneInv w0 b w c) (ops : List HOp) :
    cloneInv w0 b (applyHOps w c ops).1 (applyHOps w c ops).2 := by
  induction ops generalizing w c with
  | nil => exact hinv
  | cons op rest ih =>
    unfold applyHOps
    exact ih (cloneInv_step hwf hinv op)

/-- The part-1 invariant holds right after `Clone`. -/
theorem cloneInv_cloneHeap {w1 : HWorld} {b : HeapRest} (hwf : HeapRest.wf w1 b) :
    cloneInv (cloneHeap w1 b).1 b (cloneHeap w1 b).1 (cloneHeap w1 b).2 := by
  obtain ⟨f1, f2, f3, f4, f5, f6⟩ := hwf
  refine ⟨le_refl _, le_refl _, fun k => rfl, rfl, ?_, ?_⟩
  · intro x y
    simp only [cloneHeap]
    intro he
    by_cases hxy : x = y
    · subst hxy
      exact Nat.le_of_eq rfl
    · have h0 := f6 x y hxy he
      have := (f5 x h0).1
      have := (f5 y (he.symm.trans h0)).1
      omega
  · simp only [cloneHeap, Store.alloc]
    have := f4
    omega

/-- One original-side mutation preserves the part-2 invariant: header
mutations touch only the header heap, and query appends never touch the
clone's freshly allocated query array. -/
theorem origInv_step {w0 : HWorld} {c : HeapRest} {w : HWorld} {b : HeapRest}
    (hinv : origInv w0 c w b) (op : HOp) :
    origInv w0 c (applyHOp w b op).1 (applyHOp w b op).2 := by
  obtain ⟨j1, j2, j3⟩ := hinv
  cases op with
  | addHeader k v =>
    by_cases hc : (b.header k).len < (b.header k).cap
    · rw [show applyHOp w b (.addHeader k v) =
          ({ w with hs := w.hs.write (b.header k).arr (b.header k).len v },
           { b with header := fun k2 => if k2 = k then
                ⟨(b.header k).arr, (b.header k).len + 1, (b.header k).cap⟩
              else b.header k2 }) from by
        simp [applyHOp, appendSlice_inplace _ _ _ _ hc]]
      exact ⟨j1, j2, j3⟩
    · rw [show applyHOp w b (.addHeader k v) =
          ({ w with hs := (w.hs.alloc ((w.hs.arrays (b.header k).arr).take (b.header k).len ++
               v :: List.replicate (growCap (b.header k).cap - ((b.header k).len + 1)) "")).1 },
           { b with header := fun k2 => if k2 = k then
                ⟨w.hs.next, (b.header k).len + 1, growCap (b.header k).cap⟩
              else b.header k2 }) from by
        simp [applyHOp, appendSlice_grow _ _ _ _ hc]]
      exact ⟨j1, j2, j3⟩
  | setHeader k v =>
    rw [show applyHOp w b (.setHeader k v) =
        ({ w with hs := (w.hs.alloc [v]).1 },
         { b with header := fun k2 => if k2 = k then ⟨w.hs.next, 1, 1⟩ else b.header k2 })
      from by simp [applyHOp, Store.alloc]]
    exact ⟨j1, j2, j3⟩
  | queryStruct q =>
    by_cases hc : b.queryStructs.len < b.queryStructs.cap
    · rw [show applyHOp w b (.queryStruct q) =
          ({ w with qs := w.qs.write b.queryStructs.arr b.queryStructs.len q },
           { b with queryStructs :=
              ⟨b.queryStructs.arr, b.queryStructs.len + 1, b.queryStructs.cap⟩ })
        from by simp [applyHOp, appendSlice_inplace _ _ _ _ hc]]
      refine ⟨?_, j2, j3⟩
      rw [← j1]
      unfold obsQuery GoSlice.view
      simp only [Store.write]
      rw [if_neg (Ne.symm j2)]
    · rw [show applyHOp w b (.queryStruct q) =
          ({ w with qs := (w.qs.alloc ((w.qs.arrays b.queryStructs.arr).take b.queryStructs.len ++
               q :: List.replicate (growCap b.queryStructs.cap - (b.queryStructs.len + 1)) 0)).1 },
           { b with queryStructs :=
              ⟨w.qs.next, b.queryStructs.len + 1, growCap b.queryStructs.cap⟩ })
        from by simp [applyHOp, appendSlice_grow _ _ _ _ hc]]
      refine ⟨?_, ?_, ?_⟩
      · rw [← j1]
        unfold obsQuery GoSlice.view
        simp only [Store.alloc]
        rw [if_neg (by omega)]
      · intro hq
        have hq2 : w.qs.next = c.queryStructs.arr := hq
        omega
      · simp only [Store.alloc]
        omega

/-- The part-2 invariant holds after any original-side mutation
sequence. -/
theorem origInv_applyHOps {w0 : HWorld} {c : HeapRest} {w : HWorld} {b : HeapRest}
    (hinv : origInv w0 c w b) (ops : List HOp) :
    origInv w0 c (applyHOps w b ops).1 (applyHOps w b ops).2 := by
  induction ops generalizing w b with
  | nil => exact hinv
  | cons op rest ih =>
    unfold applyHOps
    exact ih (origInv_step hinv op)

/-- The part-2 invariant holds right after `Clone`. -/
theorem origInv_cloneHeap {w1 : HWorld} {b : HeapRest} (hwf : HeapRest.wf w1 b) :
    origInv (cloneHeap w1 b).1 (cloneHeap w1 b).2 (cloneHeap w1 b).1 b := by
  obtain ⟨f1, f2, f3, f4, f5, f6⟩ := hwf
  refine ⟨rfl, ?_, ?_⟩
  · simp only [cloneHeap, Store.alloc]
    intro hq
    have hq2 : b.queryStructs.arr = w1.qs.next := hq
    omega
  · simp only [cloneHeap, Store.alloc]
    omega

/-- C9 (amended): for every builder reachable from `New()` by header and
query-structure mutations, after `c := b.Clone()`: mutating `c`'s headers
(via `AddHeader`/`SetHeader`) or appending to `c`'s query-structure list
never changes the headers or the query-structure list observed on `b`;
and appending to `b`'s query-structure list never changes the
query-structure list observed on `c`.  The remaining direction of the
original claim — that mutating `b`'s headers never changes `c` — is false
(see the aliasing counterexample): `Clone` shares the per-key header value
slices. -/
theorem Clone_isolation (ops0 opsC opsB : List HOp) :
    let wb := applyHOps HWorld.init HeapRest.new ops0
    let wc := cloneHeap wb.1 wb.2
    let afterC := applyHOps wc.1 wc.2 opsC
    let afterB := applyHOps wc.1 wb.2 opsB
    (∀ k, obsHeader afterC.1 wb.2 k = obsHeader wc.1 wb.2 k) ∧
    obsQuery afterC.1 wb.2 = obsQuery wc.1 wb.2 ∧
    obsQuery afterB.1 wc.2 = obsQuery wc.1 wc.2 := by
  intro wb wc afterC afterB
  have hwf1 : HeapRest.wf wb.1 wb.2 := wf_applyHOps wf_init ops0
  have hq : wc.1.qs.next = wb.1.qs.next + 1 := by
    simp [wc, cloneHeap, Store.alloc]
  have hwf2 : HeapRest.wf wc.1 wb.2 := wf_mono hwf1 (le_of_eq rfl) (by omega)
  have hci := cloneInv_applyHOps hwf2 (cloneInv_cloneHeap hwf1) opsC
  have hoi := origInv_applyHOps (origInv_cloneHeap hwf1) opsB
  exact ⟨hci.2.2.1, hci.2.2.2.1, hoi.1⟩
